import Mathlib

/-!
# Terminal I/O of umoria (`src/ui_io.cpp`): message line, key input, line editor

A shallow embedding of the terminal I/O module.  The process-wide globals of the
source (message ring, pending flag, EOF counter, the curses window, the `game`
record) are the fields of one `State`; every function of the source is a Lean
function on that state.  A C `char` is represented by its byte value `0..255`
and a C string by the list of its bytes (without the terminating NUL).

Calls that leave the module (curses, `playerDisturb`, `saveGame`, `endGame`,
`abort`) are recorded, in order, in `State.trace`; the curses window is
modelled as a character grid with a cursor so that what is shown can be read
back.
-/

namespace Umoria

/-! ## Constants of the missing headers -/

/-- Modelled from the spec: the end-of-stream signal of the raw input primitive
(`EOF` of the C library, which is not in src). -/
def EOF : Int := -1

/-- Modelled from the spec: the escape code yielded on end-of-stream (`ESCAPE`
of the missing header, ASCII 27). -/
def ESCAPE : Int := 27

/-- Modelled from the spec: the backspace/delete key (`DELETE` of the missing
header, ASCII 127). -/
def DELETE : Int := 127

/-- Modelled from the spec: the control-key code of a letter (`CTRL_KEY(x)` of
the missing header keeps the low five bits of the letter). -/
def CTRL_KEY (x : Int) : Int := x % 32

/-- Modelled from the spec: the dedicated message line is row 0 (`MSG_LINE` of
the missing header; the source addresses it as `move(0, 0)` in
`messageLinePrintMessage`). -/
def MSG_LINE : Int := 0

/-- Bytes of a string literal of the source. -/
def cstr (str : String) : List Int := str.toList.map (fun c => (c.toNat : Int))

/-- Length of a C string (`strlen`). -/
def strlen (str : List Int) : Int := (str.length : Int)

/-- The test `isprint(key) != 0` in the C locale. -/
def isprint (key : Int) : Bool := decide (32 ≤ key) && decide (key ≤ 126)

/-! ## The curses window -/

/-- The curses standard window: a grid of character cells and a cursor. -/
structure Window where
  LINES : Nat
  COLS : Nat
  cells : Nat → Nat → Int
  cury : Nat
  curx : Nat

namespace Window

/-- Curses `move`: fails (ERR, window untouched) outside the window. -/
def move (w : Window) (y x : Int) : Bool × Window :=
  if 0 ≤ y ∧ y < w.LINES ∧ 0 ≤ x ∧ x < w.COLS then
    (true, { w with cury := y.toNat, curx := x.toNat })
  else (false, w)

/-- Curses `clrtoeol`: blank from the cursor to the end of its row. -/
def clrtoeol (w : Window) : Window :=
  { w with cells := fun r c => if r = w.cury ∧ w.curx ≤ c then 32 else w.cells r c }

/-- Curses `clrtobot`: blank from the cursor to the end of the window. -/
def clrtobot (w : Window) : Window :=
  { w with cells := fun r c =>
      if (r = w.cury ∧ w.curx ≤ c) ∨ w.cury < r then 32 else w.cells r c }

/-- Curses `clear`: blank the whole window, cursor to the top left. -/
def clear (w : Window) : Window :=
  { w with cells := fun _ _ => 32, cury := 0, curx := 0 }

/-- Curses `addch` for an ordinary character: write at the cursor and advance,
wrapping at the right margin; at the bottom right corner the character is
written and ERR is returned (no scrolling). -/
def addch (w : Window) (ch : Int) : Bool × Window :=
  let w1 := { w with cells := fun r c => if r = w.cury ∧ c = w.curx then ch else w.cells r c }
  if w.curx + 1 < w.COLS then (true, { w1 with curx := w.curx + 1 })
  else if w.cury + 1 < w.LINES then (true, { w1 with cury := w.cury + 1, curx := 0 })
  else (false, w1)

/-- Curses `addstr`: `addch` character by character, stopping at the first ERR. -/
def addstr (w : Window) : List Int → Bool × Window
  | [] => (true, w)
  | ch :: rest =>
    match w.addch ch with
    | (true, w1) => w1.addstr rest
    | (false, w1) => (false, w1)

/-- The characters shown on a row, columns 0 to 79. -/
def rowText (w : Window) (row : Nat) : List Int := (List.range 80).map (w.cells row)

end Window

/-! ## State -/

/-- Calls that leave the module, in the order they are made. -/
inductive Event where
  | raw
  | noecho
  | nonl
  | keypad (enable : Bool)
  | refresh
  | wrefresh_curscr
  | move (y x : Int)
  | clrtoeol
  | clrtobot
  | clear
  | addch (ch : Int)
  | addstr (str : List Int)
  | mvaddch (y x ch : Int)
  | mvaddstr (y x : Int) (str : List Int)
  | getch (result : Int)
  | bell
  | playerDisturb (major light : Int)
  | saveGame
  | endGame
  | abort
  deriving DecidableEq, Repr

/-- A screen position (`Coord_t`). -/
structure Coord_t where
  y : Int
  x : Int
  deriving DecidableEq, Repr

/-- The fields of the global `game` record used by this module. -/
structure Game where
  command_count : Int
  character_generated : Bool
  character_saved : Bool
  character_died_from : List Int
  character_is_dead : Bool
  deriving DecidableEq, Repr

/-- The process-wide state this module reads and writes.  `input` is the stream
of results the raw input primitive `getch` will deliver, `saveGame_result` the
answer the persistence collaborator will give, `error_beep_sound` the user
option consulted by the bell.  The counters `eof_flag` and `last_message_id`
only count upwards from 0 and are natural numbers; `messages` gives the text of
every slot of the ring. -/
structure State where
  stdscr : Window
  curses_on : Bool
  screen_has_changed : Bool
  eof_flag : Nat
  panic_save : Bool
  message_ready_to_print : Bool
  messages : Nat → List Int
  last_message_id : Nat
  game : Game
  error_beep_sound : Bool
  saveGame_result : Bool
  input : List Int
  trace : List Event

/-- Why a call did not return to its caller: the session was ended by
`endGame()`, the process was killed by `abort()`, `getch()` waits for a key that
never comes, or a loop of the model ran out of steps. -/
inductive Stop where
  | endGame
  | abort
  | blocked
  | fuel
  deriving DecidableEq, Repr

/-- Result of running a function of the module. -/
inductive Outcome (α : Type) where
  | ok (val : α) (s : State)
  | stop (why : Stop) (s : State)

namespace Outcome

/-- The state in which the call returned or stopped. -/
def state {α : Type} : Outcome α → State
  | ok _ s => s
  | stop _ s => s

/-- Sequencing: continue only when the call returned. -/
def bind {α β : Type} (o : Outcome α) (f : α → State → Outcome β) : Outcome β :=
  match o with
  | ok v s => f v s
  | stop why s => stop why s

/-- The call returned to its caller. -/
def returned {α : Type} : Outcome α → Bool
  | ok _ _ => true
  | stop _ _ => false

/-- The reason the call stopped, if it did. -/
def stopped {α : Type} : Outcome α → Option Stop
  | ok _ _ => none
  | stop why _ => some why

end Outcome

/-- Record a call that leaves the module. -/
def State.log (s : State) (e : Event) : State := { s with trace := s.trace ++ [e] }

/-! ## Curses calls on the state -/

/-- The curses calls below record the call and act on the window; the boolean
is `true` for OK and `false` for ERR. -/
def move (y x : Int) (s : State) : Bool × State :=
  let s := s.log (.move y x)
  let r := s.stdscr.move y x
  (r.1, { s with stdscr := r.2 })

def clrtoeol (s : State) : State :=
  let s := s.log .clrtoeol
  { s with stdscr := s.stdscr.clrtoeol }

def clrtobot (s : State) : State :=
  let s := s.log .clrtobot
  { s with stdscr := s.stdscr.clrtobot }

def clear (s : State) : State :=
  let s := s.log .clear
  { s with stdscr := s.stdscr.clear }

def addch (ch : Int) (s : State) : Bool × State :=
  let s := s.log (.addch ch)
  let r := s.stdscr.addch ch
  (r.1, { s with stdscr := r.2 })

def addstr (str : List Int) (s : State) : Bool × State :=
  let s := s.log (.addstr str)
  let r := s.stdscr.addstr str
  (r.1, { s with stdscr := r.2 })

def mvaddch (y x ch : Int) (s : State) : Bool × State :=
  let s := s.log (.mvaddch y x ch)
  match s.stdscr.move y x with
  | (true, w) => let r := w.addch ch; (r.1, { s with stdscr := r.2 })
  | (false, _) => (false, s)

def mvaddstr (y x : Int) (str : List Int) (s : State) : Bool × State :=
  let s := s.log (.mvaddstr y x str)
  match s.stdscr.move y x with
  | (true, w) => let r := w.addstr str; (r.1, { s with stdscr := r.2 })
  | (false, _) => (false, s)

def refresh (s : State) : State := s.log .refresh

/-! ## The functions of `ui_io.cpp` -/

/-- The function `moriaTerminalInitialize`: set the terminal modes again. -/
def moriaTerminalInitialize (s : State) : State :=
  let s := s.log .raw
  let s := s.log .noecho
  let s := s.log .nonl
  let s := s.log (.keypad false)
  { s with curses_on := true }

/-- The function `putQIO`: mark the screen as changed and refresh. -/
def putQIO (s : State) : State :=
  let s := { s with screen_has_changed := true }
  refresh s

/-- The function `terminalBellSound`: the bell is written only when the user
option allows it. -/
def terminalBellSound (s : State) : State :=
  let s := putQIO s
  if s.error_beep_sound then s.log .bell else s

/-- The function `moveCursor`; the result of `move` is ignored. -/
def moveCursor (coords : Coord_t) (s : State) : State :=
  (move coords.y coords.x s).2

/-- The function `putString`: the column is capped at 79, `strncpy` keeps the
first `79 - x` characters of the text, and the process is aborted when
`mvaddstr` reports ERR. -/
def putString (out_str : List Int) (coords : Coord_t) (s : State) : Outcome Unit :=
  let coords := if coords.x > 79 then { coords with x := 79 } else coords
  let str := out_str.take (79 - coords.x).toNat
  match mvaddstr coords.y coords.x str s with
  | (true, s1) => .ok () s1
  | (false, s1) => .stop .abort (s1.log .abort)

/-- The function `currentCursorPosition` (`getyx`). -/
def currentCursorPosition (s : State) : Coord_t :=
  { y := (s.stdscr.cury : Int), x := (s.stdscr.curx : Int) }

/-- The function `messageLinePrintMessage`: `message.resize(79)` followed by
`addstr(message.c_str())` writes the first 79 characters of the text. -/
def messageLinePrintMessage (message : List Int) (s : State) : State :=
  let coords := currentCursorPosition s
  let s := (move 0 0 s).2
  let s := clrtoeol s
  let message := message.take 79
  let s := (addstr message s).2
  (move coords.y coords.x s).2

/-- The function `messageLineClear`. -/
def messageLineClear (s : State) : State :=
  let coords := currentCursorPosition s
  let s := (move 0 0 s).2
  let s := clrtoeol s
  (move coords.y coords.x s).2

/-- Modelled from the spec: the disturbance notification
`notifyDisturbance(magnitude, auxFlag)` raised toward the game session
(`playerDisturb`, whose body is not in src); recorded as a call. -/
def playerDisturb (major light : Int) (s : State) : State :=
  s.log (.playerDisturb major light)

/-- Modelled from the spec: the emergency persistence
`attemptSave() -> success|failure` (`saveGame`, whose body is not in src);
recorded as a call, its answer is taken from the state. -/
def saveGame (s : State) : Bool × State := (s.saveGame_result, s.log .saveGame)

/-- Modelled from the spec: the session termination `endSession()`, a
non-returning call (`endGame`, whose body is not in src). -/
def endGame {α : Type} (s : State) : Outcome α := .stop .endGame (s.log .endGame)

/-- The `while (true)` loop of `getKeyInput`; every turn takes one result of
`getch()` from the input stream, and `getch()` waits for ever when the stream
is used up.  The conversion `(char) ch` keeps the low eight bits. -/
def getKeyLoop : List Int → State → Outcome Int
  | [], s => .stop .blocked { s with input := [] }
  | ch :: rest, s =>
    let s := { s with input := rest }
    let s := s.log (.getch ch)
    if ch = EOF then
      let s := { s with message_ready_to_print := false }
      let s := { s with eof_flag := s.eof_flag + 1 }
      let s := refresh s
      if !s.game.character_generated || s.game.character_saved then
        endGame s
      else
        let s := playerDisturb 1 0 s
        if s.eof_flag > 100 then
          let s := { s with panic_save := true }
          let s := { s with game := { s.game with
                        character_died_from := cstr "(end of input: panic saved)" } }
          let r := saveGame s
          let s := r.2
          let s := if !r.1 then
              { s with game := { s.game with
                  character_died_from := cstr "panic: unexpected eof",
                  character_is_dead := true } }
            else s
          endGame s
        else
          .ok ESCAPE s
    else if ch ≠ CTRL_KEY 82 then
      .ok (ch % 256) s
    else
      let s := s.log .wrefresh_curscr
      let s := moriaTerminalInitialize s
      getKeyLoop rest s

/-- The function `getKeyInput`. -/
def getKeyInput (s : State) : Outcome Int :=
  let s := putQIO s
  let s := { s with game := { s.game with command_count := 0 } }
  getKeyLoop s.input s

/-- The `do ... while` loop of the prompt in `printMessage`; the keys compared
are `' '` (32), `ESCAPE`, newline (10) and carriage return (13).  Every turn
takes at least one element of the input stream, so `input.length + 1` turns are
always enough. -/
def moreKeyLoop : Nat → State → Outcome Unit
  | 0, s => .stop .fuel s
  | fuel + 1, s =>
    (getKeyInput s).bind fun in_char s1 =>
    if in_char ≠ 32 ∧ in_char ≠ ESCAPE ∧ in_char ≠ 10 ∧ in_char ≠ 13 then
      moreKeyLoop fuel s1
    else .ok () s1

/-- The function `printMessage`; `none` is the null pointer `CNIL`.  `N` is
`MESSAGE_HISTORY_SIZE` and `M` is `MORIA_MESSAGE_SIZE`, constants of a header
that is not in src.  `first` is the block `if (message_ready_to_print)`, which
yields `combine_messages` and `old_len`; the rest of the function follows.
`strncpy` with the terminator at `M - 1` keeps the first `M - 1` characters;
`strcat` appends without a bound. -/
def printMessage (N M : Nat) (msg : Option (List Int)) (s : State) : Outcome Unit :=
  let first : Outcome (Bool × Int) :=
    if s.message_ready_to_print then
      let old_len : Int := strlen (s.messages s.last_message_id) + 1
      let new_len : Int := match msg with
        | some m => strlen m
        | none => 0
      if msg.isNone ∨ new_len + old_len + 2 ≥ 73 then
        let old_len : Int := if old_len > 73 then 73 else old_len
        ( putString (cstr " -more-") { y := MSG_LINE, x := old_len } s).bind fun _ s1 =>
        (moreKeyLoop (s1.input.length + 1) s1).bind fun _ s2 =>
        .ok (false, old_len) s2
      else .ok (true, old_len) s
    else .ok (false, 0) s
  first.bind fun r s =>
    let combine_messages := r.1
    let old_len := r.2
    let s := if !combine_messages then clrtoeol (move MSG_LINE 0 s).2 else s
    match msg with
    | none => .ok () { s with message_ready_to_print := false }
    | some m =>
      let s := { s with game := { s.game with command_count := 0 } }
      let s := { s with message_ready_to_print := true }
      if combine_messages then
        ( putString m { y := MSG_LINE, x := old_len + 2 } s).bind fun _ s =>
        .ok () { s with messages := Function.update s.messages s.last_message_id
                          (s.messages s.last_message_id ++ cstr "  " ++ m) }
      else
        let s := messageLinePrintMessage m s
        let s := { s with last_message_id := s.last_message_id + 1 }
        let s := if s.last_message_id ≥ N then { s with last_message_id := 0 } else s
        .ok () { s with messages := Function.update s.messages s.last_message_id
                          (m.take (M - 1)) }

/-- The function `clearScreen`. -/
def clearScreen (N M : Nat) (s : State) : Outcome Unit :=
  (if s.message_ready_to_print then printMessage N M none s else .ok () s).bind fun _ s =>
  .ok () (clear s)

/-- The function `clearToBottom`. -/
def clearToBottom (row : Int) (s : State) : State :=
  let s := (move row 0 s).2
  clrtobot s

/-- The function `putStringClearToEOL`. -/
def putStringClearToEOL (N M : Nat) (str : List Int) (coords : Coord_t) (s : State) :
    Outcome Unit :=
  (if coords.y = MSG_LINE ∧ s.message_ready_to_print then printMessage N M none s
   else .ok () s).bind fun _ s =>
  let s := (move coords.y coords.x s).2
  let s := clrtoeol s
  putString str coords s

/-- The function `eraseLine`. -/
def eraseLine (N M : Nat) (coords : Coord_t) (s : State) : Outcome Unit :=
  (if coords.y = MSG_LINE ∧ s.message_ready_to_print then printMessage N M none s
   else .ok () s).bind fun _ s =>
  let s := (move coords.y coords.x s).2
  .ok () (clrtoeol s)

/-- The loop `for (int i = slen; i > 0; i--) addch(' ')` of `getStringInput`. -/
def addBlanks : Nat → State → State
  | 0, s => s
  | i + 1, s => addBlanks i (addch 32 s).2

/-- The loop `while (p > in_str && p[-1] == ' ') p--` of `getStringInput`. -/
def removeTrailingBlanks (buf : List Int) : List Int :=
  (buf.reverse.dropWhile (fun c => decide (c = 32))).reverse

/-- The `switch (key)` statement in the edit loop of `getStringInput`.  `buf`
holds the characters between `in_str` and the write pointer `p`; `next` is the
following turn of the loop; leaving the loop, the result carries `flag` (true)
or `aborted` (false) together with the buffer. -/
def getStringKey (next : Coord_t → List Int → State → Outcome (Bool × List Int))
    (start_col end_col : Int) (coords : Coord_t) (buf : List Int) (key : Int) (s : State) :
    Outcome (Bool × List Int) :=
  if key = ESCAPE then .ok (false, buf) s
  else if key = CTRL_KEY 74 ∨ key = CTRL_KEY 77 then .ok (true, buf) s
  else if key = DELETE ∨ key = CTRL_KEY 72 then
    if coords.x > start_col then
      let coords := { coords with x := coords.x - 1 }
      ( putString (cstr " ") coords s).bind fun _ s =>
      let s := moveCursor coords s
      next coords buf.dropLast s
    else next coords buf s
  else if !isprint key || coords.x > end_col then
    next coords buf (terminalBellSound s)
  else
    let s := (mvaddch coords.y coords.x key s).2
    next { coords with x := coords.x + 1 } (buf ++ [key]) s

/-- The loop `while (!flag && !aborted)` of `getStringInput`. -/
def getStringLoop : Nat → Int → Int → Coord_t → List Int → State → Outcome (Bool × List Int)
  | 0, _, _, _, _, s => .stop .fuel s
  | fuel + 1, start_col, end_col, coords, buf, s =>
    (getKeyInput s).bind fun key s =>
    getStringKey (getStringLoop fuel start_col end_col) start_col end_col coords buf key s

/-- The function `getStringInput`: the returned pair is the boolean result and
the contents left in `in_str` (on an abort the buffer is left as typed, without
a terminator). -/
def getStringInput (coords : Coord_t) (slen : Int) (s : State) : Outcome (Bool × List Int) :=
  let s := (move coords.y coords.x s).2
  let s := addBlanks slen.toNat s
  let s := (move coords.y coords.x s).2
  let start_col := coords.x
  let end_col := coords.x + slen - 1
  let end_col := if end_col > 79 then 79 else end_col
  (getStringLoop (s.input.length + 1) start_col end_col coords [] s).bind fun r s =>
  if r.1 = false then .ok (false, r.2) s
  else .ok (true, removeTrailingBlanks r.2) s

/-! ## Concrete states used to run the functions -/

/-- A blank 24 by 80 window. -/
def blankWindow : Window :=
  { LINES := 24, COLS := 80, cells := fun _ _ => 32, cury := 0, curx := 0 }

/-- A session in play (character generated, not saved), nothing pending, empty
history, blank screen, with the given input stream. -/
def playState (input : List Int) : State :=
  { stdscr := blankWindow, curses_on := true, screen_has_changed := false, eof_flag := 0,
    panic_save := false, message_ready_to_print := false, messages := fun _ => [],
    last_message_id := 0,
    game := { command_count := 0, character_generated := true, character_saved := false,
              character_died_from := [], character_is_dead := false },
    error_beep_sound := true, saveGame_result := true, input := input, trace := [] }

/-! ## Auxiliary definitions used in the statements -/

/-- What `getKeyInput` never touches, and the direction the EOF counter moves. -/
structure KeyFrame (s t : State) : Prop where
  messages : t.messages = s.messages
  last_message_id : t.last_message_id = s.last_message_id
  stdscr : t.stdscr = s.stdscr
  saveGame_result : t.saveGame_result = s.saveGame_result
  error_beep_sound : t.error_beep_sound = s.error_beep_sound
  eof_flag : s.eof_flag ≤ t.eof_flag

/-- The calls made for `n` redraw requests read in a row. -/
def redraws : Nat → List Event
  | 0 => []
  | n + 1 => [.getch 18, .wrefresh_curscr, .raw, .noecho, .nonl, .keypad false] ++ redraws n

/-- The calls made by `n` calls of `getKeyInput` that each meet end-of-stream
without reaching the panic threshold. -/
def eofRounds : Nat → List Event
  | 0 => []
  | n + 1 => [.refresh, .getch EOF, .refresh, .playerDisturb 1 0] ++ eofRounds n

/-- Call `getKeyInput` `n` times in a row, collecting the characters returned. -/
def getKeyInputTimes : Nat → State → Outcome (List Int)
  | 0, s => .ok [] s
  | n + 1, s =>
    (getKeyInput s).bind fun c s1 =>
    (getKeyInputTimes n s1).bind fun cs s2 =>
    .ok (c :: cs) s2

/-- A session in play where five end-of-stream detections have been counted and
the key `a` is waiting in the input. -/
def eofSeenState : State := { playState [97] with eof_flag := 5 }

/-- What a screen call leaves alone: everything but the window contents, the
cursor and the record of calls; the window keeps its size. -/
structure ScreenFrame (s t : State) : Prop where
  eof_flag : t.eof_flag = s.eof_flag
  panic_save : t.panic_save = s.panic_save
  message_ready_to_print : t.message_ready_to_print = s.message_ready_to_print
  messages : t.messages = s.messages
  last_message_id : t.last_message_id = s.last_message_id
  game : t.game = s.game
  input : t.input = s.input
  saveGame_result : t.saveGame_result = s.saveGame_result
  error_beep_sound : t.error_beep_sound = s.error_beep_sound
  LINES : t.stdscr.LINES = s.stdscr.LINES
  COLS : t.stdscr.COLS = s.stdscr.COLS

/-- Well-formed history ring: the index of the newest entry is inside the ring
of `N` slots and every slot holds at most `M - 1` characters. -/
def HistoryWF (N M : Nat) (s : State) : Prop :=
  s.last_message_id < N ∧ ∀ i, i < N → (s.messages i).length ≤ M - 1

/-- The session reached by printing `text` in a session in play with nothing
pending (history of 40 entries of 128 bytes). -/
def afterMessage (text : List Int) (input : List Int) : State :=
  (printMessage 40 128 (some text) (playState input)).state

/-- The session reached by printing `aaaa` in a session in play with nothing
pending, for a history of 40 entries of 10 bytes. -/
def shortEntryState : State :=
  (printMessage 40 10 (some (cstr "aaaa")) (playState [])).state

/-- Invariant of the edit loop of `getStringInput`: the buffer holds one
character per column between the start column and the cursor, the cursor is at
most one past the end column, and every buffered character is printable. -/
def EditInv (start_col end_col : Int) (coords : Coord_t) (buf : List Int) : Prop :=
  (buf.length : Int) = coords.x - start_col ∧ coords.x ≤ end_col + 1 ∧
    ∀ c ∈ buf, isprint c = true

/-! ## Key input -/

theorem KeyFrame.same (s : State) : KeyFrame s s := ⟨rfl, rfl, rfl, rfl, rfl, le_rfl⟩

theorem KeyFrame.chain {s t u : State} (h1 : KeyFrame s t) (h2 : KeyFrame t u) : KeyFrame s u :=
  ⟨h2.messages.trans h1.messages, h2.last_message_id.trans h1.last_message_id,
   h2.stdscr.trans h1.stdscr, h2.saveGame_result.trans h1.saveGame_result,
   h2.error_beep_sound.trans h1.error_beep_sound, h1.eof_flag.trans h2.eof_flag⟩

theorem getKeyLoop_frame (inp : List Int) (s : State) : KeyFrame s (getKeyLoop inp s).state := by
  induction inp generalizing s with
  | nil => exact ⟨rfl, rfl, rfl, rfl, rfl, le_rfl⟩
  | cons ch rest ih =>
    unfold getKeyLoop
    by_cases h1 : ch = EOF
    · simp only [h1, if_true]
      split_ifs <;> constructor <;> simp [Outcome.state, endGame, State.log, refresh, playerDisturb, saveGame]
    · simp only [h1, if_false]
      split_ifs
      · constructor <;> simp [Outcome.state, State.log]
      · refine KeyFrame.chain ?_ (ih _)
        constructor <;> simp [State.log, moriaTerminalInitialize]

theorem CTRL_KEY_R : CTRL_KEY 82 = 18 := by decide

theorem getKeyLoop_ok_ne_redraw (inp : List Int) (s : State)
    (h : ∀ k ∈ inp, -1 ≤ k ∧ k ≤ 255) (c : Int) (t : State)
    (hr : getKeyLoop inp s = .ok c t) : c ≠ 18 := by
  induction inp generalizing s with
  | nil => simp [getKeyLoop] at hr
  | cons ch rest ih =>
    have hch := h ch (List.mem_cons_self _ _)
    unfold getKeyLoop at hr
    by_cases h1 : ch = EOF
    · simp only [h1, if_true] at hr
      split_ifs at hr
      · simp [endGame] at hr
      · simp [endGame] at hr
      · simp [endGame] at hr
      · simp [ESCAPE] at hr
        omega
    · simp only [h1, if_false] at hr
      split_ifs at hr with h2
      · simp only [Outcome.ok.injEq] at hr
        simp only [CTRL_KEY_R, EOF] at h1 h2
        omega
      · exact ih _ (fun k hk => h k (List.mem_cons_of_mem _ hk)) hr

theorem getKeyLoop_normal (n : Nat) (c : Int) (rest : List Int) (s : State)
    (h1 : c ≠ EOF) (h2 : c ≠ 18) :
    ∃ t, getKeyLoop (List.replicate n 18 ++ c :: rest) s = .ok (c % 256) t ∧
      t.input = rest ∧ t.trace = s.trace ++ redraws n ++ [.getch c] ∧
      t.eof_flag = s.eof_flag ∧ t.message_ready_to_print = s.message_ready_to_print ∧
      t.messages = s.messages ∧ t.last_message_id = s.last_message_id ∧
      t.game = s.game ∧ t.stdscr = s.stdscr ∧ t.panic_save = s.panic_save := by
  induction n generalizing s with
  | zero =>
    simp [getKeyLoop, h1, h2, CTRL_KEY_R, State.log, redraws]
  | succ n ih =>
    obtain ⟨t, ht, hrest⟩ := ih (moriaTerminalInitialize
      (({ s with input := List.replicate n 18 ++ c :: rest }.log (.getch 18)).log .wrefresh_curscr))
    refine ⟨t, ?_, ?_⟩
    · rw [← ht]
      simp [List.replicate_succ, getKeyLoop, CTRL_KEY_R, EOF]
    · simpa [moriaTerminalInitialize, State.log, redraws, List.append_assoc] using hrest


theorem getKeyLoop_eof_flag (n : Nat) (rest : List Int) (s : State) :
    (getKeyLoop (List.replicate n 18 ++ EOF :: rest) s).state.eof_flag = s.eof_flag + 1 := by
  induction n generalizing s with
  | zero =>
    simp only [List.replicate_zero, List.nil_append, getKeyLoop, if_true]
    split_ifs <;>
      simp [Outcome.state, endGame, State.log, refresh, playerDisturb, saveGame]
  | succ n ih =>
    have h := ih (moriaTerminalInitialize
      (({ s with input := List.replicate n 18 ++ EOF :: rest }.log (.getch 18)).log
        .wrefresh_curscr))
    simp only [moriaTerminalInitialize, State.log] at h
    simp only [List.replicate_succ, List.cons_append, getKeyLoop]
    rw [if_neg (by decide), if_neg (by simp [CTRL_KEY_R])]
    simpa [moriaTerminalInitialize, State.log] using h

theorem getKeyInput_eq (s : State) :
    getKeyInput s = getKeyLoop s.input
      { ( putQIO s) with game := { s.game with command_count := 0 } } := rfl

theorem getKeyInput_normal (n : Nat) (c : Int) (rest : List Int) (s : State)
    (hin : s.input = List.replicate n 18 ++ c :: rest) (h1 : c ≠ EOF) (h2 : c ≠ 18) :
    ∃ t, getKeyInput s = .ok (c % 256) t ∧
      t.input = rest ∧ t.trace = s.trace ++ [.refresh] ++ redraws n ++ [.getch c] ∧
      t.eof_flag = s.eof_flag ∧ t.message_ready_to_print = s.message_ready_to_print ∧
      t.messages = s.messages ∧ t.last_message_id = s.last_message_id ∧
      t.game = { s.game with command_count := 0 } ∧ t.stdscr = s.stdscr ∧
      t.panic_save = s.panic_save := by
  rw [getKeyInput_eq, hin]
  obtain ⟨t, ht, hrest⟩ := getKeyLoop_normal n c rest
    { ( putQIO s) with game := { s.game with command_count := 0 } } h1 h2
  exact ⟨t, ht, by simpa [refresh, putQIO, State.log] using hrest⟩

theorem getKeyInput_frame (s : State) : KeyFrame s (getKeyInput s).state := by
  rw [getKeyInput_eq]
  refine KeyFrame.chain ?_ (getKeyLoop_frame _ _)
  constructor <;> simp [refresh, putQIO, State.log]

theorem getKeyInput_eof_below (s : State) (rest : List Int)
    (hin : s.input = EOF :: rest) (hg : s.game.character_generated = true)
    (hs : s.game.character_saved = false) (hlt : s.eof_flag < 100) :
    ∃ t, getKeyInput s = .ok ESCAPE t ∧ t.input = rest ∧ t.eof_flag = s.eof_flag + 1 ∧
      t.trace = s.trace ++ [.refresh, .getch EOF, .refresh, .playerDisturb 1 0] ∧
      t.game = { s.game with command_count := 0 } ∧ t.panic_save = s.panic_save ∧
      t.saveGame_result = s.saveGame_result ∧ t.message_ready_to_print = false := by
  rw [getKeyInput_eq, hin]
  have hlt2 : ¬ (100 < s.eof_flag + 1) := by omega
  simp [getKeyLoop, refresh, putQIO, refresh, State.log, playerDisturb, hg, hs, hlt2]

theorem getKeyInput_eof_panic (s : State) (rest : List Int)
    (hin : s.input = EOF :: rest) (hg : s.game.character_generated = true)
    (hs : s.game.character_saved = false) (hge : 100 ≤ s.eof_flag) :
    ∃ t, getKeyInput s = .stop .endGame t ∧ t.panic_save = true ∧
      t.trace = s.trace ++
        [.refresh, .getch EOF, .refresh, .playerDisturb 1 0, .saveGame, .endGame] ∧
      (s.saveGame_result = true →
        t.game.character_died_from = cstr "(end of input: panic saved)" ∧
        t.game.character_is_dead = s.game.character_is_dead) ∧
      (s.saveGame_result = false →
        t.game.character_died_from = cstr "panic: unexpected eof" ∧
        t.game.character_is_dead = true) := by
  rw [getKeyInput_eq, hin]
  have hlt2 : 100 < s.eof_flag + 1 := by omega
  cases hsave : s.saveGame_result <;>
    simp [getKeyLoop, refresh, putQIO, refresh, State.log, playerDisturb, saveGame, endGame, hg, hs,
      hlt2, hsave]

theorem eofRounds_append (n : Nat) :
    eofRounds (n + 1) = eofRounds n ++ [.refresh, .getch EOF, .refresh, .playerDisturb 1 0] := by
  induction n with
  | zero => rfl
  | succ n ih =>
    conv_lhs => rw [eofRounds, ih]
    simp [eofRounds]

theorem eofRounds_counts (n : Nat) :
    (eofRounds n).count (.playerDisturb 1 0) = n ∧ (eofRounds n).count .saveGame = 0 ∧
      (eofRounds n).count .endGame = 0 := by
  induction n with
  | zero => simp [eofRounds]
  | succ n ih =>
    obtain ⟨h1, h2, h3⟩ := ih
    simp [eofRounds, List.count_cons, h1, h2, h3, EOF]

theorem getKeyInputTimes_eof (n : Nat) (s : State) (rest : List Int)
    (hin : s.input = List.replicate n EOF ++ rest)
    (hg : s.game.character_generated = true) (hs : s.game.character_saved = false)
    (hlt : s.eof_flag + n ≤ 100) :
    ∃ t, getKeyInputTimes n s = .ok (List.replicate n ESCAPE) t ∧ t.input = rest ∧
      t.eof_flag = s.eof_flag + n ∧ t.trace = s.trace ++ eofRounds n ∧
      t.game.character_generated = true ∧ t.game.character_saved = false ∧
      t.game.character_is_dead = s.game.character_is_dead ∧
      t.panic_save = s.panic_save ∧ t.saveGame_result = s.saveGame_result := by
  induction n generalizing s with
  | zero => exact ⟨s, rfl, by simpa using hin, rfl, by simp [eofRounds], hg, hs, rfl, rfl, rfl⟩
  | succ n ih =>
    obtain ⟨t, ht, h1, h2, h3, h4, h5, h6, _⟩ :=
      getKeyInput_eof_below s (List.replicate n EOF ++ rest)
        (by simpa [List.replicate_succ] using hin) hg hs (by omega)
    obtain ⟨u, hu, g1, g2, g3, g4, g5, g6, g7, g8⟩ :=
      ih t h1 (by simp [h4, hg]) (by simp [h4, hs]) (by omega)
    refine ⟨u, ?_, g1, by omega, ?_, g4, g5, by simp [g6, h4], by rw [g7, h5], by rw [g8, h6]⟩
    · simp [getKeyInputTimes, ht, hu, Outcome.bind, List.replicate_succ]
    · rw [g3, h3]
      simp [eofRounds]

/-- C4: sustained end-of-stream.  From a session in play (character generated,
not saved) with the EOF counter at 0, the first `n ≤ 100` consecutive calls of
`getKeyInput` that meet end-of-stream all return the escape code, the session
goes on, and they make exactly `n` calls `playerDisturb(1, 0)` and no call of
`saveGame` or `endGame`; the 101st such call sets `panic_save`, calls
`playerDisturb(1, 0)`, `saveGame` once and then `endGame`, and marks the
character dead with the cause overwritten exactly when the save fails. -/
theorem getKeyInput_sustained_eof (s : State) (rest : List Int)
    (h0 : s.eof_flag = 0) (hg : s.game.character_generated = true)
    (hs : s.game.character_saved = false)
    (hin : s.input = List.replicate 101 EOF ++ rest) :
    (∀ n, n ≤ 100 → ∃ t, getKeyInputTimes n s = .ok (List.replicate n ESCAPE) t ∧
        t.eof_flag = n ∧ t.input = List.replicate (101 - n) EOF ++ rest ∧
        t.trace = s.trace ++ eofRounds n ∧
        (eofRounds n).count (.playerDisturb 1 0) = n ∧
        (eofRounds n).count .saveGame = 0 ∧ (eofRounds n).count .endGame = 0 ∧
        t.panic_save = s.panic_save ∧
        t.game.character_is_dead = s.game.character_is_dead) ∧
    (∃ t u, getKeyInputTimes 100 s = .ok (List.replicate 100 ESCAPE) t ∧
        getKeyInput t = .stop .endGame u ∧ u.panic_save = true ∧
        u.trace = t.trace ++
          [.refresh, .getch EOF, .refresh, .playerDisturb 1 0, .saveGame, .endGame] ∧
        (s.saveGame_result = true →
          u.game.character_died_from = cstr "(end of input: panic saved)" ∧
          u.game.character_is_dead = s.game.character_is_dead) ∧
        (s.saveGame_result = false →
          u.game.character_died_from = cstr "panic: unexpected eof" ∧
          u.game.character_is_dead = true)) := by
  have split : ∀ n, n ≤ 101 →
      s.input = List.replicate n EOF ++ (List.replicate (101 - n) EOF ++ rest) := by
    intro n hn
    rw [hin, ← List.append_assoc, List.append_replicate_replicate]
    congr 2
    omega
  constructor
  · intro n hn
    obtain ⟨t, ht, h1, h2, h3, _, _, h6, h7, _⟩ :=
      getKeyInputTimes_eof n s _ (split n (by omega)) hg hs (by omega)
    obtain ⟨c1, c2, c3⟩ := eofRounds_counts n
    exact ⟨t, ht, by omega, h1, h3, c1, c2, c3, h7, h6⟩
  · obtain ⟨t, ht, h1, h2, h3, h4, h5, h6, h7, h8⟩ :=
      getKeyInputTimes_eof 100 s _ (split 100 (by omega)) hg hs (by omega)
    obtain ⟨u, hu, g1, g2, g3, g4⟩ :=
      getKeyInput_eof_panic t rest (by simpa using h1) h4 h5 (by omega)
    refine ⟨t, u, ht, hu, g1, g2, ?_, ?_⟩
    · intro hsv
      have := g3 (by rw [h8, hsv])
      rw [h6] at this
      exact this
    · intro hsv
      exact g4 (by rw [h8, hsv])

/-- Witness for C4: a session in play fed 101 end-of-stream results. -/
theorem getKeyInput_sustained_eof_witness :
    (playState (List.replicate 101 EOF ++ [])).eof_flag = 0 ∧
    ∃ t u, getKeyInputTimes 100 (playState (List.replicate 101 EOF ++ [])) =
        .ok (List.replicate 100 ESCAPE) t ∧
      getKeyInput t = .stop .endGame u ∧ u.panic_save = true :=
  ⟨rfl, by
    obtain ⟨t, u, h1, h2, h3, _⟩ :=
      (getKeyInput_sustained_eof (playState (List.replicate 101 EOF ++ [])) [] rfl rfl rfl rfl).2
    exact ⟨t, u, h1, h2, h3⟩⟩

/-- C9: redraw filtering.  On a stream of results of `getch` (each is
end-of-stream or a byte), `getKeyInput` never returns the redraw character
`^R` (18); and when the stream starts with `n` redraw requests followed by a
byte `c` that is not `^R`, all `n` are consumed, each with a redraw
(`wrefresh(curscr)` and the terminal modes set again) and a new read, and `c`
itself is returned, leaving the rest of the stream unread. -/
theorem getKeyInput_filters_redraw :
    (∀ (s : State) (c : Int) (t : State), (∀ k ∈ s.input, -1 ≤ k ∧ k ≤ 255) →
        getKeyInput s = .ok c t → c ≠ CTRL_KEY 82) ∧
    (∀ (s : State) (n : Nat) (c : Int) (rest : List Int),
        s.input = List.replicate n (CTRL_KEY 82) ++ c :: rest →
        0 ≤ c → c ≤ 255 → c ≠ CTRL_KEY 82 →
        ∃ t, getKeyInput s = .ok c t ∧ t.input = rest ∧
          t.trace = s.trace ++ [.refresh] ++ redraws n ++ [.getch c]) := by
  constructor
  · intro s c t h hr
    rw [CTRL_KEY_R]
    rw [getKeyInput_eq] at hr
    exact getKeyLoop_ok_ne_redraw _ _ h c t hr
  · intro s n c rest hin h0 h255 hc
    rw [CTRL_KEY_R] at hin hc
    obtain ⟨t, ht, h1, h2, _⟩ := getKeyInput_normal n c rest s hin (by simp [EOF]; omega) hc
    have hmod : c % 256 = c := Int.emod_eq_of_lt h0 (by omega)
    rw [hmod] at ht
    exact ⟨t, ht, h1, h2⟩

/-- Witness for C9: two redraw requests, then the key `a`, then `b`. -/
theorem getKeyInput_filters_redraw_witness :
    ∃ t, getKeyInput (playState [18, 18, 97, 98]) = .ok 97 t ∧ t.input = [98] ∧
      t.trace = (playState [18, 18, 97, 98]).trace ++ [.refresh] ++ redraws 2 ++ [.getch 97] :=
  getKeyInput_filters_redraw.2 (playState [18, 18, 97, 98]) 2 97 [98] rfl (by decide)
    (by decide) (by decide)

/-- C5 fails as stated: after five counted end-of-stream detections a call of
`getKeyInput` that returns the normal key `a` leaves the counter at 5, not 0. -/
theorem getKeyInput_no_reset_counterexample :
    eofSeenState.eof_flag = 5 ∧ (getKeyInput eofSeenState).returned = true ∧
      (getKeyInput eofSeenState).state.input = [] ∧
      (getKeyInput eofSeenState).state.eof_flag = 5 ∧
      (getKeyInput eofSeenState).state.eof_flag ≠ 0 := by
  decide

/-- C5 as amended: `getKeyInput` never resets or lowers the EOF counter.  A call
that obtains a normal key (after any number of redraw requests) returns it and
leaves `eof_flag` unchanged; a call that meets end-of-stream raises it by one.
The counter therefore counts all end-of-stream detections, consecutive or
not. -/
theorem getKeyInput_eof_flag_monotone :
    (∀ s : State, s.eof_flag ≤ (getKeyInput s).state.eof_flag) ∧
    (∀ (s : State) (n : Nat) (c : Int) (rest : List Int),
        s.input = List.replicate n (CTRL_KEY 82) ++ c :: rest → c ≠ EOF → c ≠ CTRL_KEY 82 →
        ∃ t, getKeyInput s = .ok (c % 256) t ∧ t.input = rest ∧ t.eof_flag = s.eof_flag) ∧
    (∀ (s : State) (n : Nat) (rest : List Int),
        s.input = List.replicate n (CTRL_KEY 82) ++ EOF :: rest →
        (getKeyInput s).state.eof_flag = s.eof_flag + 1) := by
  refine ⟨fun s => (getKeyInput_frame s).eof_flag, ?_, ?_⟩
  · intro s n c rest hin h1 h2
    rw [CTRL_KEY_R] at hin h2
    obtain ⟨t, ht, g1, _, g3, _⟩ := getKeyInput_normal n c rest s hin h1 h2
    exact ⟨t, ht, g1, g3⟩
  · intro s n rest hin
    rw [CTRL_KEY_R] at hin
    rw [getKeyInput_eq, hin]
    exact getKeyLoop_eof_flag n rest _

/-- Witness for C5 as amended, at the state of the counterexample. -/
theorem getKeyInput_eof_flag_monotone_witness :
    ∃ t, getKeyInput eofSeenState = .ok (97 % 256) t ∧ t.input = [] ∧
      t.eof_flag = eofSeenState.eof_flag :=
  getKeyInput_eof_flag_monotone.2.1 eofSeenState 0 97 [] rfl (by decide) (by decide)

/-! ## The window and the screen calls -/

theorem Window.move_dims (w : Window) (y x : Int) :
    (w.move y x).2.LINES = w.LINES ∧ (w.move y x).2.COLS = w.COLS := by
  unfold Window.move
  split_ifs <;> simp

theorem Window.addch_dims (w : Window) (ch : Int) :
    (w.addch ch).2.LINES = w.LINES ∧ (w.addch ch).2.COLS = w.COLS := by
  unfold Window.addch
  split_ifs <;> simp

theorem Window.addstr_dims (w : Window) (str : List Int) :
    (w.addstr str).2.LINES = w.LINES ∧ (w.addstr str).2.COLS = w.COLS := by
  induction str generalizing w with
  | nil => simp [Window.addstr]
  | cons ch rest ih =>
    have h := w.addch_dims ch
    unfold Window.addstr
    rcases hr : w.addch ch with ⟨b, w1⟩
    rw [hr] at h
    cases b
    · simpa using h
    · have := ih w1
      simp only at h ⊢
      rw [this.1, this.2]
      exact h

theorem Window.addstr_fst (w : Window) (str : List Int) (h : w.curx + str.length < w.COLS) :
    (w.addstr str).1 = true := by
  induction str generalizing w with
  | nil => simp [Window.addstr]
  | cons ch rest ih =>
    simp only [List.length_cons] at h
    have h1 : w.curx + 1 < w.COLS := by omega
    simp only [Window.addstr, Window.addch, if_pos h1]
    apply ih
    simp only
    omega

theorem ScreenFrame.unchanged (s : State) : ScreenFrame s s :=
  ⟨rfl, rfl, rfl, rfl, rfl, rfl, rfl, rfl, rfl, rfl, rfl⟩

theorem ScreenFrame.seq {s t u : State} (h1 : ScreenFrame s t) (h2 : ScreenFrame t u) :
    ScreenFrame s u :=
  ⟨h2.eof_flag.trans h1.eof_flag, h2.panic_save.trans h1.panic_save,
   h2.message_ready_to_print.trans h1.message_ready_to_print,
   h2.messages.trans h1.messages, h2.last_message_id.trans h1.last_message_id,
   h2.game.trans h1.game, h2.input.trans h1.input,
   h2.saveGame_result.trans h1.saveGame_result, h2.error_beep_sound.trans h1.error_beep_sound,
   h2.LINES.trans h1.LINES, h2.COLS.trans h1.COLS⟩

theorem move_frame (y x : Int) (s : State) : ScreenFrame s (move y x s).2 := by
  have h := s.stdscr.move_dims y x
  constructor <;> simp [move, State.log, h.1, h.2]

theorem clrtoeol_frame (s : State) : ScreenFrame s (clrtoeol s) := by
  constructor <;> simp [clrtoeol, State.log, Window.clrtoeol]

theorem addstr_frame (str : List Int) (s : State) : ScreenFrame s (addstr str s).2 := by
  have h := s.stdscr.addstr_dims str
  constructor <;> simp [addstr, State.log, h.1, h.2]

theorem mvaddstr_frame (y x : Int) (str : List Int) (s : State) :
    ScreenFrame s (mvaddstr y x str s).2 := by
  have h := s.stdscr.move_dims y x
  have h2 := (s.stdscr.move y x).2.addstr_dims str
  unfold mvaddstr
  rcases hr : (s.log (.mvaddstr y x str)).stdscr.move y x with ⟨b, w⟩
  have hr2 : s.stdscr.move y x = (b, w) := hr
  rw [hr2] at h h2
  cases b <;> constructor <;> simp_all [State.log]

theorem mvaddstr_trace (y x : Int) (str : List Int) (s : State) :
    (mvaddstr y x str s).2.trace = s.trace ++ [.mvaddstr y x str] := by
  unfold mvaddstr
  rcases hr : (s.log (.mvaddstr y x str)).stdscr.move y x with ⟨b, w⟩
  have hr2 : s.stdscr.move y x = (b, w) := hr
  cases b <;> simp [State.log, hr2]

theorem mvaddstr_fst (y x : Int) (str : List Int) (s : State)
    (hy : 0 ≤ y ∧ y < s.stdscr.LINES) (hx : 0 ≤ x) (hlen : x + str.length < s.stdscr.COLS) :
    (mvaddstr y x str s).1 = true := by
  have hm : s.stdscr.move y x = (true, { s.stdscr with cury := y.toNat, curx := x.toNat }) := by
    unfold Window.move
    rw [if_pos]
    exact ⟨hy.1, hy.2, hx, by omega⟩
  have hm2 : (s.log (.mvaddstr y x str)).stdscr.move y x =
      (true, { s.stdscr with cury := y.toNat, curx := x.toNat }) := hm
  unfold mvaddstr
  simp only [hm2]
  apply Window.addstr_fst
  simp only
  omega


theorem putString_frame (str : List Int) (coords : Coord_t) (s : State) :
    ScreenFrame s (putString str coords s).state := by
  unfold putString
  have := mvaddstr_frame (if coords.x > 79 then { coords with x := 79 } else coords).y
    (if coords.x > 79 then { coords with x := 79 } else coords).x
    (str.take (79 - (if coords.x > 79 then { coords with x := 79 } else coords).x).toNat) s
  simp only
  rcases hr : mvaddstr (if coords.x > 79 then { coords with x := 79 } else coords).y
    (if coords.x > 79 then { coords with x := 79 } else coords).x
    (str.take (79 - (if coords.x > 79 then { coords with x := 79 } else coords).x).toNat) s
    with ⟨b, s1⟩
  rw [hr] at this
  have h2 : ScreenFrame s s1 := this
  cases b
  · constructor <;> simp [Outcome.state, State.log, h2.eof_flag, h2.panic_save,
      h2.message_ready_to_print, h2.messages, h2.last_message_id, h2.game, h2.input,
      h2.saveGame_result, h2.error_beep_sound, h2.LINES, h2.COLS]
  · exact h2

theorem putString_trace (str : List Int) (y x : Int) (s : State) :
    ∃ later, (putString str { y := y, x := x } s).state.trace =
      s.trace ++ Event.mvaddstr y (min x 79) (str.take (79 - min x 79).toNat) :: later := by
  have hx : (if x > 79 then ({ y := y, x := 79 } : Coord_t) else { y := y, x := x }) =
      { y := y, x := min x 79 } := by
    split_ifs with h
    · rw [min_eq_right (by omega)]
    · rw [min_eq_left (by omega)]
  unfold putString
  simp only [hx]
  have ht := mvaddstr_trace y (min x 79) (str.take (79 - min x 79).toNat) s
  rcases hr : mvaddstr y (min x 79) (str.take (79 - min x 79).toNat) s with ⟨b, s1⟩
  rw [hr] at ht
  simp only at ht
  cases b
  · exact ⟨[.abort], by simp [Outcome.state, State.log, ht]⟩
  · exact ⟨[], by simp [Outcome.state, ht]⟩

theorem putString_ok (str : List Int) (y x : Int) (s : State)
    (hy : 0 ≤ y ∧ y < s.stdscr.LINES) (hx : 0 ≤ x) (hc : 80 ≤ s.stdscr.COLS) :
    ∃ t, putString str { y := y, x := x } s = .ok () t ∧
      t.trace = s.trace ++ [.mvaddstr y (min x 79) (str.take (79 - min x 79).toNat)] ∧
      ScreenFrame s t := by
  have hx2 : (if x > 79 then ({ y := y, x := 79 } : Coord_t) else { y := y, x := x }) =
      { y := y, x := min x 79 } := by
    split_ifs with h
    · rw [min_eq_right (by omega)]
    · rw [min_eq_left (by omega)]
  have hf := putString_frame str { y := y, x := x } s
  have hlen : (str.take (79 - min x 79).toNat).length ≤ (79 - min x 79).toNat :=
    List.length_take_le _ _
  have hfst := mvaddstr_fst y (min x 79) (str.take (79 - min x 79).toNat) s hy (by omega)
    (by
      have : min x 79 ≤ 79 := min_le_right _ _
      omega)
  have ht := mvaddstr_trace y (min x 79) (str.take (79 - min x 79).toNat) s
  unfold putString at hf ⊢
  simp only [hx2] at hf ⊢
  rcases hr : mvaddstr y (min x 79) (str.take (79 - min x 79).toNat) s with ⟨b, s1⟩
  rw [hr] at hfst ht hf
  simp only at hfst
  subst hfst
  exact ⟨s1, rfl, ht, hf⟩

theorem messageLinePrintMessage_frame (message : List Int) (s : State) :
    ScreenFrame s (messageLinePrintMessage message s) := by
  unfold messageLinePrintMessage
  exact (((move_frame _ _ _).seq (clrtoeol_frame _)).seq (addstr_frame _ _)).seq
    (move_frame _ _ _)

theorem getKeyLoop_input_lt (inp : List Int) (s : State) (c : Int) (t : State)
    (hr : getKeyLoop inp s = .ok c t) : t.input.length < inp.length := by
  induction inp generalizing s with
  | nil => simp [getKeyLoop] at hr
  | cons ch rest ih =>
    unfold getKeyLoop at hr
    by_cases h1 : ch = EOF
    · simp only [h1, if_true] at hr
      split_ifs at hr
      · simp [endGame] at hr
      · simp [endGame] at hr
      · simp [endGame] at hr
      · simp only [Outcome.ok.injEq] at hr
        rw [← hr.2]
        simp [playerDisturb, refresh, State.log]
    · simp only [h1, if_false] at hr
      split_ifs at hr with h2
      · simp only [Outcome.ok.injEq] at hr
        rw [← hr.2]
        simp [State.log]
      · have := ih _ hr
        simp only [List.length_cons]
        omega

theorem getKeyLoop_never_fuel (inp : List Int) (s t : State) :
    getKeyLoop inp s ≠ .stop .fuel t := by
  induction inp generalizing s with
  | nil => simp [getKeyLoop]
  | cons ch rest ih =>
    unfold getKeyLoop
    by_cases h1 : ch = EOF
    · simp only [h1, if_true]
      split_ifs <;> simp [endGame]
    · simp only [h1, if_false]
      split_ifs
      · simp
      · exact ih _

theorem getKeyInput_input_lt (s : State) (c : Int) (t : State)
    (hr : getKeyInput s = .ok c t) : t.input.length < s.input.length := by
  rw [getKeyInput_eq] at hr
  exact getKeyLoop_input_lt _ _ c t hr

theorem moreKeyLoop_frame (fuel : Nat) (s : State) : KeyFrame s (moreKeyLoop fuel s).state := by
  induction fuel generalizing s with
  | zero => exact KeyFrame.same s
  | succ fuel ih =>
    have h := getKeyInput_frame s
    unfold moreKeyLoop
    cases hr : getKeyInput s with
    | stop why s1 =>
      rw [hr] at h
      exact h
    | ok c s1 =>
      rw [hr] at h
      simp only [Outcome.bind]
      split_ifs
      · exact h.chain (ih s1)
      · exact h

theorem moreKeyLoop_no_fuel (fuel : Nat) (s : State) (h : s.input.length < fuel) :
    (moreKeyLoop fuel s).stopped ≠ some .fuel := by
  induction fuel generalizing s with
  | zero => omega
  | succ fuel ih =>
    unfold moreKeyLoop
    cases hr : getKeyInput s with
    | stop why s1 =>
      simp only [Outcome.bind, Outcome.stopped]
      rw [getKeyInput_eq] at hr
      intro hw
      simp only [Option.some.injEq] at hw
      subst hw
      exact getKeyLoop_never_fuel _ _ _ hr
    | ok c s1 =>
      have := getKeyInput_input_lt s c s1 hr
      simp only [Outcome.bind]
      split_ifs
      · exact ih s1 (by omega)
      · simp [Outcome.stopped]


theorem getKeyLoop_redraw_step (l : List Int) (s : State) :
    getKeyLoop (18 :: l) s = getKeyLoop l (moriaTerminalInitialize
      (({ s with input := l }.log (.getch 18)).log .wrefresh_curscr)) := by
  simp [getKeyLoop, CTRL_KEY_R, EOF]

theorem getKeyLoop_key_step (c : Int) (l : List Int) (s : State)
    (h0 : 0 ≤ c) (h255 : c ≤ 255) (h18 : c ≠ 18) :
    getKeyLoop (c :: l) s = .ok c ({ s with input := l }.log (.getch c)) := by
  have hmod : c % 256 = c := Int.emod_eq_of_lt h0 (by omega)
  have h1 : c ≠ EOF := by simp only [EOF]; omega
  simp [getKeyLoop, CTRL_KEY_R, h1, h18, hmod]

theorem moreKeyLoop_dismiss_aux (pre : List Int) (k : Int) (rest : List Int)
    (hpre : ∀ c ∈ pre, 0 ≤ c ∧ c ≤ 255 ∧ c ≠ 32 ∧ c ≠ 27 ∧ c ≠ 10 ∧ c ≠ 13)
    (hk : k = 32 ∨ k = 27 ∨ k = 10 ∨ k = 13) (fuel : Nat) (s : State)
    (hfuel : pre.length ≤ fuel) :
    ∃ t, (getKeyLoop (pre ++ k :: rest) s).bind (fun in_char s1 =>
        if in_char ≠ 32 ∧ in_char ≠ ESCAPE ∧ in_char ≠ 10 ∧ in_char ≠ 13 then
          moreKeyLoop fuel s1
        else .ok () s1) = .ok () t ∧ t.input = rest := by
  induction pre generalizing fuel s with
  | nil =>
    have hk0 : 0 ≤ k ∧ k ≤ 255 ∧ k ≠ 18 := by omega
    rw [List.nil_append, getKeyLoop_key_step k rest s hk0.1 hk0.2.1 hk0.2.2]
    have hd : ¬ (k ≠ 32 ∧ k ≠ ESCAPE ∧ k ≠ 10 ∧ k ≠ 13) := by
      simp only [ESCAPE]; omega
    simp only [Outcome.bind, if_neg hd]
    exact ⟨_, rfl, by simp [State.log]⟩
  | cons c pre ih =>
    have hc := hpre c (List.mem_cons_self _ _)
    have hpre2 : ∀ c ∈ pre, 0 ≤ c ∧ c ≤ 255 ∧ c ≠ 32 ∧ c ≠ 27 ∧ c ≠ 10 ∧ c ≠ 13 :=
      fun x hx => hpre x (List.mem_cons_of_mem _ hx)
    simp only [List.length_cons] at hfuel
    by_cases h18 : c = 18
    · subst h18
      rw [List.cons_append, getKeyLoop_redraw_step]
      exact ih hpre2 fuel _ (by omega)
    · rw [List.cons_append, getKeyLoop_key_step c _ s hc.1 hc.2.1 h18]
      have hd : c ≠ 32 ∧ c ≠ ESCAPE ∧ c ≠ 10 ∧ c ≠ 13 := by
        simp only [ESCAPE]; omega
      simp only [Outcome.bind, if_pos hd]
      obtain ⟨f, rfl⟩ : ∃ f, fuel = f + 1 := ⟨fuel - 1, by omega⟩
      unfold moreKeyLoop
      rw [getKeyInput_eq]
      exact ih hpre2 f _ (by omega)

theorem moreKeyLoop_dismiss (pre : List Int) (k : Int) (rest : List Int)
    (hpre : ∀ c ∈ pre, 0 ≤ c ∧ c ≤ 255 ∧ c ≠ 32 ∧ c ≠ 27 ∧ c ≠ 10 ∧ c ≠ 13)
    (hk : k = 32 ∨ k = 27 ∨ k = 10 ∨ k = 13) (fuel : Nat) (s : State)
    (hin : s.input = pre ++ k :: rest) (hfuel : pre.length < fuel) :
    ∃ t, moreKeyLoop fuel s = .ok () t ∧ t.input = rest ∧ KeyFrame s t := by
  obtain ⟨f, rfl⟩ : ∃ f, fuel = f + 1 := ⟨fuel - 1, by omega⟩
  have hfr := moreKeyLoop_frame (f + 1) s
  unfold moreKeyLoop at hfr ⊢
  rw [getKeyInput_eq, hin] at hfr ⊢
  obtain ⟨t, ht, h1⟩ := moreKeyLoop_dismiss_aux pre k rest hpre hk f
    { ( putQIO s) with game := { s.game with command_count := 0 } } (by omega)
  rw [ht] at hfr
  exact ⟨t, ht, h1, hfr⟩


/-! ## printMessage -/

set_option maxRecDepth 8000

@[simp] theorem move_eof_flag (y x : Int) (s : State) :
    (move y x s).2.eof_flag = s.eof_flag := (move_frame y x s).eof_flag

@[simp] theorem move_panic_save (y x : Int) (s : State) :
    (move y x s).2.panic_save = s.panic_save := (move_frame y x s).panic_save

@[simp] theorem move_message_ready_to_print (y x : Int) (s : State) :
    (move y x s).2.message_ready_to_print = s.message_ready_to_print := (move_frame y x s).message_ready_to_print

@[simp] theorem move_messages (y x : Int) (s : State) :
    (move y x s).2.messages = s.messages := (move_frame y x s).messages

@[simp] theorem move_last_message_id (y x : Int) (s : State) :
    (move y x s).2.last_message_id = s.last_message_id := (move_frame y x s).last_message_id

@[simp] theorem move_game (y x : Int) (s : State) :
    (move y x s).2.game = s.game := (move_frame y x s).game

@[simp] theorem move_input (y x : Int) (s : State) :
    (move y x s).2.input = s.input := (move_frame y x s).input

@[simp] theorem move_saveGame_result (y x : Int) (s : State) :
    (move y x s).2.saveGame_result = s.saveGame_result := (move_frame y x s).saveGame_result

@[simp] theorem move_error_beep_sound (y x : Int) (s : State) :
    (move y x s).2.error_beep_sound = s.error_beep_sound := (move_frame y x s).error_beep_sound

@[simp] theorem clrtoeol_eof_flag  (s : State) :
    (clrtoeol s).eof_flag = s.eof_flag := (clrtoeol_frame s).eof_flag

@[simp] theorem clrtoeol_panic_save  (s : State) :
    (clrtoeol s).panic_save = s.panic_save := (clrtoeol_frame s).panic_save

@[simp] theorem clrtoeol_message_ready_to_print  (s : State) :
    (clrtoeol s).message_ready_to_print = s.message_ready_to_print := (clrtoeol_frame s).message_ready_to_print

@[simp] theorem clrtoeol_messages  (s : State) :
    (clrtoeol s).messages = s.messages := (clrtoeol_frame s).messages

@[simp] theorem clrtoeol_last_message_id  (s : State) :
    (clrtoeol s).last_message_id = s.last_message_id := (clrtoeol_frame s).last_message_id

@[simp] theorem clrtoeol_game  (s : State) :
    (clrtoeol s).game = s.game := (clrtoeol_frame s).game

@[simp] theorem clrtoeol_input  (s : State) :
    (clrtoeol s).input = s.input := (clrtoeol_frame s).input

@[simp] theorem clrtoeol_saveGame_result  (s : State) :
    (clrtoeol s).saveGame_result = s.saveGame_result := (clrtoeol_frame s).saveGame_result

@[simp] theorem clrtoeol_error_beep_sound  (s : State) :
    (clrtoeol s).error_beep_sound = s.error_beep_sound := (clrtoeol_frame s).error_beep_sound

@[simp] theorem messageLinePrintMessage_eof_flag (m : List Int) (s : State) :
    (messageLinePrintMessage m s).eof_flag = s.eof_flag := (messageLinePrintMessage_frame m s).eof_flag

@[simp] theorem messageLinePrintMessage_panic_save (m : List Int) (s : State) :
    (messageLinePrintMessage m s).panic_save = s.panic_save := (messageLinePrintMessage_frame m s).panic_save

@[simp] theorem messageLinePrintMessage_message_ready_to_print (m : List Int) (s : State) :
    (messageLinePrintMessage m s).message_ready_to_print = s.message_ready_to_print := (messageLinePrintMessage_frame m s).message_ready_to_print

@[simp] theorem messageLinePrintMessage_messages (m : List Int) (s : State) :
    (messageLinePrintMessage m s).messages = s.messages := (messageLinePrintMessage_frame m s).messages

@[simp] theorem messageLinePrintMessage_last_message_id (m : List Int) (s : State) :
    (messageLinePrintMessage m s).last_message_id = s.last_message_id := (messageLinePrintMessage_frame m s).last_message_id

@[simp] theorem messageLinePrintMessage_game (m : List Int) (s : State) :
    (messageLinePrintMessage m s).game = s.game := (messageLinePrintMessage_frame m s).game

@[simp] theorem messageLinePrintMessage_input (m : List Int) (s : State) :
    (messageLinePrintMessage m s).input = s.input := (messageLinePrintMessage_frame m s).input

@[simp] theorem messageLinePrintMessage_saveGame_result (m : List Int) (s : State) :
    (messageLinePrintMessage m s).saveGame_result = s.saveGame_result := (messageLinePrintMessage_frame m s).saveGame_result

@[simp] theorem messageLinePrintMessage_error_beep_sound (m : List Int) (s : State) :
    (messageLinePrintMessage m s).error_beep_sound = s.error_beep_sound := (messageLinePrintMessage_frame m s).error_beep_sound

theorem printMessage_not_pending (N M : Nat) (m : List Int) (s : State)
    (hp : s.message_ready_to_print = false) :
    ∃ t, printMessage N M (some m) s = .ok () t ∧ t.input = s.input ∧
      t.last_message_id = (if s.last_message_id + 1 ≥ N then 0 else s.last_message_id + 1) ∧
      t.messages = Function.update s.messages t.last_message_id (m.take (M - 1)) ∧
      t.message_ready_to_print = true ∧ t.game.command_count = 0 ∧
      t.eof_flag = s.eof_flag := by
  unfold printMessage
  simp only [hp, Bool.false_eq_true, if_false, Outcome.bind, Bool.not_false, if_true]
  refine ⟨_, rfl, ?_, ?_, ?_, ?_, ?_, ?_⟩
  · split_ifs <;> simp
  · split_ifs <;> simp_all
  · split_ifs <;> simp_all
  · split_ifs <;> simp
  · split_ifs <;> simp
  · split_ifs <;> simp

theorem printMessage_null_not_pending (N M : Nat) (s : State)
    (hp : s.message_ready_to_print = false) :
    printMessage N M none s =
      .ok () { (clrtoeol (move MSG_LINE 0 s).2) with message_ready_to_print := false } := by
  unfold printMessage
  simp [hp, Outcome.bind]

/-- After the prompt has been answered `printMessage` goes on as if no message
were pending. -/
theorem printMessage_prompt_path (N M : Nat) (msg : Option (List Int)) (s : State)
    (hp : s.message_ready_to_print = true)
    (hc : msg.isNone ∨
      (match msg with | some m => strlen m | none => 0) +
        (strlen (s.messages s.last_message_id) + 1) + 2 ≥ 73) :
    printMessage N M msg s =
      ( putString (cstr " -more-")
          { y := MSG_LINE, x := min (strlen (s.messages s.last_message_id) + 1) 73 } s).bind
        (fun _ s1 => (moreKeyLoop (s1.input.length + 1) s1).bind
          (fun _ s2 => printMessage N M msg { s2 with message_ready_to_print := false })) := by
  have hmin : (if strlen (s.messages s.last_message_id) + 1 > 73 then (73 : Int)
      else strlen (s.messages s.last_message_id) + 1) =
      min (strlen (s.messages s.last_message_id) + 1) 73 := by
    split_ifs with h
    · rw [min_eq_right (by omega)]
    · rw [min_eq_left (by omega)]
  conv_lhs => unfold printMessage
  simp only [hp, if_true, hc, hmin]
  cases h1 : putString (cstr " -more-")
      { y := MSG_LINE, x := min (strlen (s.messages s.last_message_id) + 1) 73 } s with
  | stop why s1 => simp [Outcome.bind]
  | ok v s1 =>
    simp only [Outcome.bind]
    cases h2 : moreKeyLoop (s1.input.length + 1) s1 with
    | stop why s2 => simp
    | ok v2 s2 =>
      cases msg with
      | none =>
        simp [printMessage, move, clrtoeol, State.log, Outcome.bind]
      | some m =>
        simp [printMessage, move, clrtoeol, State.log, Outcome.bind, messageLinePrintMessage,
          addstr, currentCursorPosition]

theorem printMessage_combine_path (N M : Nat) (m : List Int) (s : State)
    (hp : s.message_ready_to_print = true)
    (hc : strlen m + (strlen (s.messages s.last_message_id) + 1) + 2 < 73) :
    printMessage N M (some m) s =
      ( putString m { y := MSG_LINE, x := strlen (s.messages s.last_message_id) + 1 + 2 }
          { ({ s with game := { s.game with command_count := 0 } }) with
            message_ready_to_print := true }).bind
        (fun _ s1 => .ok () { s1 with
          messages := Function.update s1.messages s1.last_message_id
            (s1.messages s1.last_message_id ++ cstr "  " ++ m) }) := by
  have hc2 : ¬ (strlen m + (strlen (s.messages s.last_message_id) + 1) + 2 ≥ 73) := by omega
  unfold printMessage
  simp [hp, hc2, Outcome.bind]


theorem putString_stop_abort (str : List Int) (coords : Coord_t) (s : State) (why : Stop)
    (t : State) (h : putString str coords s = .stop why t) : why = .abort := by
  unfold putString at h
  simp only at h
  rcases hr : mvaddstr (if coords.x > 79 then { coords with x := 79 } else coords).y
    (if coords.x > 79 then { coords with x := 79 } else coords).x
    (str.take (79 - (if coords.x > 79 then { coords with x := 79 } else coords).x).toNat) s
    with ⟨b, s1⟩
  rw [hr] at h
  cases b
  · simp only [Outcome.stop.injEq] at h
    exact h.1.symm
  · simp at h

theorem HistoryWF.of_eq {N M : Nat} {s t : State} (h : HistoryWF N M s)
    (h1 : t.messages = s.messages) (h2 : t.last_message_id = s.last_message_id) :
    HistoryWF N M t := by
  unfold HistoryWF at *
  rw [h1, h2]
  exact h

theorem printMessage_wf_not_pending (N M : Nat) (msg : Option (List Int)) (s : State)
    (h : HistoryWF N M s) (hp : s.message_ready_to_print = false) :
    HistoryWF N M (printMessage N M msg s).state ∧ (printMessage N M msg s).stopped = none := by
  cases msg with
  | none =>
    rw [printMessage_null_not_pending N M s hp]
    exact ⟨h.of_eq (by simp [Outcome.state]) (by simp [Outcome.state]), rfl⟩
  | some m =>
    obtain ⟨t, ht, _, h2, h3, _⟩ := printMessage_not_pending N M m s hp
    rw [ht]
    refine ⟨?_, rfl⟩
    have hlt : t.last_message_id < N := by
      rw [h2]
      have := h.1
      split_ifs <;> omega
    refine ⟨hlt, ?_⟩
    intro i hi
    simp only [Outcome.state]
    rw [h3]
    by_cases hi2 : i = t.last_message_id
    · subst hi2
      simp only [Function.update_same, List.length_take]
      exact min_le_left _ _
    · rw [Function.update_noteq hi2]
      exact h.2 i hi

/-- C3 fails as stated for a small per-entry capacity: with `M = 10` and the
entry `aaaa` pending in a well-formed ring, `printMessage("bbbbbbbb")` coalesces
(`4 + 1 + 8 + 2 < 73`) and `strcat` leaves an entry of 14 characters, more than
`M - 1 = 9`. -/
theorem printMessage_history_overflow_counterexample :
    HistoryWF 40 10 shortEntryState ∧
    shortEntryState.message_ready_to_print = true ∧
    shortEntryState.last_message_id = 1 ∧
    (printMessage 40 10 (some (cstr "bbbbbbbb")) shortEntryState).returned = true ∧
    (printMessage 40 10 (some (cstr "bbbbbbbb")) shortEntryState).state.messages 1 =
      cstr "aaaa  bbbbbbbb" ∧
    ¬ HistoryWF 40 10 (printMessage 40 10 (some (cstr "bbbbbbbb")) shortEntryState).state := by
  refine ⟨⟨by decide, ?_⟩, by decide, by decide, by decide, by decide, ?_⟩
  · intro i _
    by_cases hi : i = 1
    · subst hi
      decide
    · have : shortEntryState.messages i = [] := by
        simp [shortEntryState, printMessage, Outcome.bind, Outcome.state, playState,
          Function.update_noteq hi]
      rw [this]
      decide
  · intro h
    have h1 := h.2 1 (by decide)
    revert h1
    decide

/-- C3 as amended: the history ring stays well formed when the per-entry
capacity `M` is at least 72 bytes.  From every state whose newest-entry index is
below `N` and whose entries hold at most `M - 1` characters, `printMessage`
called with any text (null or not, of any length) on any key input leaves the
index below `N` and every entry at most `M - 1` characters long, in the state
where the call returns or the process stops; and the call never runs out of
steps. -/
theorem printMessage_preserves_history (N M : Nat) (msg : Option (List Int)) (s : State)
    (hM : 72 ≤ M) (h : HistoryWF N M s) :
    HistoryWF N M (printMessage N M msg s).state ∧
      (printMessage N M msg s).stopped ≠ some .fuel := by
  cases hp : s.message_ready_to_print with
  | false =>
    obtain ⟨h1, h2⟩ := printMessage_wf_not_pending N M msg s h hp
    exact ⟨h1, by rw [h2]; simp⟩
  | true =>
    by_cases hc : msg.isNone ∨
        (match msg with | some m => strlen m | none => 0) +
          (strlen (s.messages s.last_message_id) + 1) + 2 ≥ 73
    · rw [printMessage_prompt_path N M msg s hp hc]
      have f1 := putString_frame (cstr " -more-")
        { y := MSG_LINE, x := min (strlen (s.messages s.last_message_id) + 1) 73 } s
      cases h1 : putString (cstr " -more-")
          { y := MSG_LINE, x := min (strlen (s.messages s.last_message_id) + 1) 73 } s with
      | stop why s1 =>
        rw [h1] at f1
        have n1 := putString_stop_abort _ _ _ _ _ h1
        subst n1
        exact ⟨h.of_eq f1.messages f1.last_message_id, by simp [Outcome.bind, Outcome.stopped]⟩
      | ok v s1 =>
        rw [h1] at f1
        have hw1 : HistoryWF N M s1 := h.of_eq f1.messages f1.last_message_id
        have f2 := moreKeyLoop_frame (s1.input.length + 1) s1
        have n2 := moreKeyLoop_no_fuel (s1.input.length + 1) s1 (by omega)
        simp only [Outcome.bind]
        cases h2 : moreKeyLoop (s1.input.length + 1) s1 with
        | stop why s2 =>
          rw [h2] at f2 n2
          exact ⟨hw1.of_eq f2.messages f2.last_message_id, by simpa [Outcome.stopped] using n2⟩
        | ok v2 s2 =>
          rw [h2] at f2
          have hw2 : HistoryWF N M { s2 with message_ready_to_print := false } :=
            hw1.of_eq f2.messages f2.last_message_id
          obtain ⟨g1, g2⟩ := printMessage_wf_not_pending N M msg
            { s2 with message_ready_to_print := false } hw2 rfl
          exact ⟨g1, by rw [g2]; simp⟩
    · cases msg with
      | none => simp at hc
      | some m =>
        simp only [Option.isNone_some, Bool.false_eq_true, false_or, ge_iff_le, not_le] at hc
        rw [printMessage_combine_path N M m s hp hc]
        have f1 := putString_frame m
          { y := MSG_LINE, x := strlen (s.messages s.last_message_id) + 1 + 2 }
          { ({ s with game := { s.game with command_count := 0 } }) with
            message_ready_to_print := true }
        cases h1 : putString m
            { y := MSG_LINE, x := strlen (s.messages s.last_message_id) + 1 + 2 }
            { ({ s with game := { s.game with command_count := 0 } }) with
              message_ready_to_print := true } with
        | stop why s1 =>
          rw [h1] at f1
          have n1 := putString_stop_abort _ _ _ _ _ h1
          subst n1
          exact ⟨h.of_eq f1.messages f1.last_message_id, by simp [Outcome.bind, Outcome.stopped]⟩
        | ok v s1 =>
          rw [h1] at f1
          have e1 : s1.messages = s.messages := f1.messages
          have e2 : s1.last_message_id = s.last_message_id := f1.last_message_id
          refine ⟨⟨?_, ?_⟩, by simp [Outcome.bind, Outcome.stopped]⟩
          · simp only [Outcome.bind, Outcome.state]
            rw [e2]
            exact h.1
          · intro i hi
            simp only [Outcome.bind, Outcome.state]
            rw [e1, e2]
            by_cases hi2 : i = s.last_message_id
            · subst hi2
              simp only [Function.update_same, List.length_append]
              simp only [strlen] at hc
              have : (cstr "  ").length = 2 := by decide
              omega
            · rw [Function.update_noteq hi2]
              exact h.2 i hi

/-- Witness for C3 as amended, history of 40 entries of 128 bytes: the
coalescing path (`b` appended to the pending `a`), the truncation path (a text
of 200 characters cut to 127) and the prompt path (a text that does not
coalesce after a message of 75 characters, the prompt answered by a space). -/
theorem printMessage_preserves_history_witness :
    HistoryWF 40 128 (afterMessage (cstr "a") []) ∧
    HistoryWF 40 128 (printMessage 40 128 (some (cstr "b")) (afterMessage (cstr "a") [])).state ∧
    (printMessage 40 128 (some (cstr "b")) (afterMessage (cstr "a") [])).state.messages 1 =
      cstr "a  b" ∧
    HistoryWF 40 128 (printMessage 40 128 (some (List.replicate 200 97)) (playState [])).state ∧
    ((printMessage 40 128 (some (List.replicate 200 97)) (playState [])).state.messages
      1).length = 127 ∧
    HistoryWF 40 128 (printMessage 40 128 (some (cstr "next"))
      (afterMessage (List.replicate 75 97) [120, 32])).state ∧
    (printMessage 40 128 (some (cstr "next"))
      (afterMessage (List.replicate 75 97) [120, 32])).state.last_message_id = 2 ∧
    (printMessage 40 128 (some (cstr "next"))
      (afterMessage (List.replicate 75 97) [120, 32])).state.input = [] := by
  have h0 : HistoryWF 40 128 (playState []) := ⟨by decide, fun _ _ => by simp [playState]⟩
  have hx : HistoryWF 40 128 (playState [120, 32]) :=
    ⟨by decide, fun _ _ => by simp [playState]⟩
  have ha : HistoryWF 40 128 (afterMessage (cstr "a") []) :=
    (printMessage_preserves_history 40 128 (some (cstr "a")) (playState []) (by decide) h0).1
  have hl : HistoryWF 40 128 (afterMessage (List.replicate 75 97) [120, 32]) :=
    (printMessage_preserves_history 40 128 (some (List.replicate 75 97)) (playState [120, 32])
      (by decide) hx).1
  exact ⟨ha,
    (printMessage_preserves_history 40 128 (some (cstr "b")) (afterMessage (cstr "a") [])
      (by decide) ha).1,
    by decide,
    (printMessage_preserves_history 40 128 (some (List.replicate 200 97)) (playState [])
      (by decide) h0).1,
    by decide,
    (printMessage_preserves_history 40 128 (some (cstr "next"))
      (afterMessage (List.replicate 75 97) [120, 32]) (by decide) hl).1,
    by decide, by decide⟩


/-- C8: the forced prompt.  With a message pending, the newest-entry index
inside the ring and a usable screen, when the text `T` does not coalesce and
the input holds keys `pre` none of which is space, escape, newline or carriage
return, then such a key `k`, then `rest`: `printMessage(T)` returns after
reading exactly `pre` and `k`; the index of the newest entry has advanced by
one modulo `N`, that slot holds `T` cut to `M - 1` characters, every other slot
is unchanged, a message is pending and the command count is 0. -/
theorem printMessage_forced_prompt (N M : Nat) (s : State) (T pre rest : List Int) (k : Int)
    (hp : s.message_ready_to_print = true) (hid : s.last_message_id < N)
    (hscr : 0 < s.stdscr.LINES ∧ 80 ≤ s.stdscr.COLS)
    (hno : strlen T + (strlen (s.messages s.last_message_id) + 1) + 2 ≥ 73)
    (hin : s.input = pre ++ k :: rest)
    (hpre : ∀ c ∈ pre, 0 ≤ c ∧ c ≤ 255 ∧ c ≠ 32 ∧ c ≠ 27 ∧ c ≠ 10 ∧ c ≠ 13)
    (hk : k = 32 ∨ k = 27 ∨ k = 10 ∨ k = 13) :
    ∃ t, printMessage N M (some T) s = .ok () t ∧ t.input = rest ∧
      t.last_message_id = (s.last_message_id + 1) % N ∧
      t.messages t.last_message_id = T.take (M - 1) ∧
      (∀ i, i ≠ t.last_message_id → t.messages i = s.messages i) ∧
      t.message_ready_to_print = true ∧ t.game.command_count = 0 := by
  rw [printMessage_prompt_path N M (some T) s hp (Or.inr hno)]
  have hx : 0 ≤ min (strlen (s.messages s.last_message_id) + 1) 73 := by
    simp only [strlen]
    omega
  obtain ⟨s1, h1, _, f1⟩ := putString_ok (cstr " -more-") MSG_LINE
    (min (strlen (s.messages s.last_message_id) + 1) 73) s
    ⟨by decide, by simp only [MSG_LINE]; omega⟩ hx hscr.2
  obtain ⟨s2, h2, hin2, f2⟩ := moreKeyLoop_dismiss pre k rest hpre hk (s1.input.length + 1) s1
    (by rw [f1.input, hin]) (by rw [f1.input, hin]; simp; omega)
  obtain ⟨t, ht, g1, g2, g3, g4, g5, _⟩ := printMessage_not_pending N M T
    { s2 with message_ready_to_print := false } rfl
  simp only [h1, h2, Outcome.bind]
  have e1 : s2.last_message_id = s.last_message_id :=
    f2.last_message_id.trans f1.last_message_id
  have e2 : s2.messages = s.messages := f2.messages.trans f1.messages
  have hmod : t.last_message_id = (s.last_message_id + 1) % N := by
    rw [g2]
    simp only [e1]
    split_ifs with hge
    · have : s.last_message_id + 1 = N := by omega
      rw [this, Nat.mod_self]
    · rw [Nat.mod_eq_of_lt (by omega)]
  refine ⟨t, ht, by rw [g1, hin2], hmod, ?_, ?_, g4, g5⟩
  · rw [g3]
    simp
  · intro i hi
    rw [g3, Function.update_noteq hi]
    exact congrFun e2 i

/-- Witness for C8: after a 75-character message the text `next` does not
coalesce; the keys `x`, redraw, `y` are discarded and the space dismisses the
prompt. -/
theorem printMessage_forced_prompt_witness :
    ∃ t, printMessage 40 128 (some (cstr "next"))
        (afterMessage (List.replicate 75 97) [120, 18, 121, 32, 113]) = .ok () t ∧
      t.input = [113] ∧
      t.last_message_id =
        ((afterMessage (List.replicate 75 97) [120, 18, 121, 32, 113]).last_message_id + 1) % 40 ∧
      t.messages t.last_message_id = (cstr "next").take (128 - 1) ∧
      (∀ i, i ≠ t.last_message_id →
        t.messages i = (afterMessage (List.replicate 75 97) [120, 18, 121, 32, 113]).messages i) ∧
      t.message_ready_to_print = true ∧ t.game.command_count = 0 :=
  printMessage_forced_prompt 40 128 (afterMessage (List.replicate 75 97) [120, 18, 121, 32, 113])
    (cstr "next") [120, 18, 121] [113] 32 (by decide) (by decide) (by decide) (by decide)
    (by decide) (by decide) (by decide)


@[simp] theorem move_trace (y x : Int) (s : State) :
    (move y x s).2.trace = s.trace ++ [.move y x] := rfl

@[simp] theorem clrtoeol_trace (s : State) : (clrtoeol s).trace = s.trace ++ [.clrtoeol] := rfl

@[simp] theorem addstr_trace (str : List Int) (s : State) :
    (addstr str s).2.trace = s.trace ++ [.addstr str] := rfl

theorem messageLinePrintMessage_trace (m : List Int) (s : State) :
    (messageLinePrintMessage m s).trace = s.trace ++
      [.move 0 0, .clrtoeol, .addstr (m.take 79), .move s.stdscr.cury s.stdscr.curx] := by
  simp [messageLinePrintMessage, currentCursorPosition]

theorem getKeyLoop_trace_ext (inp : List Int) (s : State) :
    ∃ later, (getKeyLoop inp s).state.trace = s.trace ++ later := by
  induction inp generalizing s with
  | nil => exact ⟨[], by simp [getKeyLoop, Outcome.state]⟩
  | cons ch rest ih =>
    unfold getKeyLoop
    by_cases h1 : ch = EOF
    · simp only [h1, if_true]
      split_ifs <;>
        exact ⟨_, by simp [Outcome.state, endGame, State.log, refresh, playerDisturb, saveGame]; rfl⟩
    · simp only [h1, if_false]
      split_ifs
      · exact ⟨_, by simp [Outcome.state, State.log]; rfl⟩
      · obtain ⟨later, hl⟩ := ih (moriaTerminalInitialize
          (({ s with input := rest }.log (.getch ch)).log .wrefresh_curscr))
        exact ⟨_, by rw [hl]; simp [moriaTerminalInitialize, State.log]; rfl⟩

theorem getKeyInput_trace_ext (s : State) :
    ∃ later, (getKeyInput s).state.trace = s.trace ++ later := by
  rw [getKeyInput_eq]
  obtain ⟨later, hl⟩ := getKeyLoop_trace_ext s.input
    { ( putQIO s) with game := { s.game with command_count := 0 } }
  exact ⟨_, by rw [hl]; simp [refresh, putQIO, State.log]; rfl⟩

theorem moreKeyLoop_trace_ext (fuel : Nat) (s : State) :
    ∃ later, (moreKeyLoop fuel s).state.trace = s.trace ++ later := by
  induction fuel generalizing s with
  | zero => exact ⟨[], by simp [moreKeyLoop, Outcome.state]⟩
  | succ fuel ih =>
    obtain ⟨l1, h1⟩ := getKeyInput_trace_ext s
    unfold moreKeyLoop
    cases hr : getKeyInput s with
    | stop why s1 =>
      rw [hr] at h1
      exact ⟨l1, h1⟩
    | ok c s1 =>
      rw [hr] at h1
      simp only [Outcome.state] at h1
      simp only [Outcome.bind]
      split_ifs
      · obtain ⟨l2, h2⟩ := ih s1
        exact ⟨l1 ++ l2, by rw [h2, h1, List.append_assoc]⟩
      · exact ⟨l1, h1⟩

theorem printMessage_trace_ext_not_pending (N M : Nat) (msg : Option (List Int)) (s : State)
    (hp : s.message_ready_to_print = false) :
    ∃ later, (printMessage N M msg s).state.trace = s.trace ++ later := by
  cases msg with
  | none =>
    rw [printMessage_null_not_pending N M s hp]
    exact ⟨_, by simp [Outcome.state]; rfl⟩
  | some m =>
    unfold printMessage
    simp only [hp, Bool.false_eq_true, if_false, Outcome.bind, Bool.not_false, if_true]
    split_ifs <;>
      exact ⟨_, by simp [Outcome.state, messageLinePrintMessage_trace]; rfl⟩

/-- C1 fails as stated: a pending message of 35 characters and a new text of 35
characters satisfy `35 + 35 + 2 < 73`, yet `printMessage` does not coalesce: it
writes the prompt, reads the waiting key and starts a fresh history entry,
leaving the old entry as it was. -/
theorem printMessage_coalesce_counterexample :
    strlen ((afterMessage (List.replicate 35 97) [32]).messages
        (afterMessage (List.replicate 35 97) [32]).last_message_id) +
      strlen (List.replicate 35 98) + 2 < 73 ∧
    (afterMessage (List.replicate 35 97) [32]).message_ready_to_print = true ∧
    (afterMessage (List.replicate 35 97) [32]).last_message_id = 1 ∧
    (afterMessage (List.replicate 35 97) [32]).input = [32] ∧
    (printMessage 40 128 (some (List.replicate 35 98))
      (afterMessage (List.replicate 35 97) [32])).state.input = [] ∧
    (printMessage 40 128 (some (List.replicate 35 98))
      (afterMessage (List.replicate 35 97) [32])).state.last_message_id = 2 ∧
    (printMessage 40 128 (some (List.replicate 35 98))
      (afterMessage (List.replicate 35 97) [32])).state.messages 1 = List.replicate 35 97 ∧
    Event.mvaddstr 0 36 (cstr " -more-") ∈
      (printMessage 40 128 (some (List.replicate 35 98))
        (afterMessage (List.replicate 35 97) [32])).state.trace := by
  decide

/-- C1 as amended: with a message pending whose newest history entry is `P`, on
a usable screen, `printMessage(T)` for a non-null `T` coalesces exactly when
`len(P) + len(T) + 3 < 73` (the source counts `len(P) + 1` for the pending
text).  When it coalesces no key is read, the only call made is the one that
writes `T` at column `len(P) + 3`, `last_message_id` is unchanged, the newest
entry becomes `P ++ "  " ++ T` and a message stays pending.  Otherwise the
first thing the call does is write the prompt `" -more-"` (cut at the right
edge) at column `min(len(P) + 1, 73)` of the message line. -/
theorem printMessage_coalescing_rule (N M : Nat) (s : State) (T : List Int)
    (hp : s.message_ready_to_print = true)
    (hscr : 0 < s.stdscr.LINES ∧ 80 ≤ s.stdscr.COLS) :
    (strlen (s.messages s.last_message_id) + strlen T + 3 < 73 →
      ∃ t, printMessage N M (some T) s = .ok () t ∧ t.input = s.input ∧
        t.trace = s.trace ++
          [.mvaddstr MSG_LINE (strlen (s.messages s.last_message_id) + 3) T] ∧
        t.last_message_id = s.last_message_id ∧
        t.messages = Function.update s.messages s.last_message_id
          (s.messages s.last_message_id ++ cstr "  " ++ T) ∧
        t.message_ready_to_print = true) ∧
    (¬ (strlen (s.messages s.last_message_id) + strlen T + 3 < 73) →
      ∃ later, (printMessage N M (some T) s).state.trace = s.trace ++
        Event.mvaddstr MSG_LINE (min (strlen (s.messages s.last_message_id) + 1) 73)
          ((cstr " -more-").take
            (79 - min (strlen (s.messages s.last_message_id) + 1) 73).toNat) :: later) := by
  constructor
  · intro hc
    rw [printMessage_combine_path N M T s hp (by omega)]
    have hlen : (0 : Int) ≤ strlen (s.messages s.last_message_id) := by simp [strlen]
    have hT : (0 : Int) ≤ strlen T := by simp [strlen]
    obtain ⟨s1, h1, htr, f1⟩ := putString_ok T MSG_LINE
      (strlen (s.messages s.last_message_id) + 1 + 2)
      { ({ s with game := { s.game with command_count := 0 } }) with
        message_ready_to_print := true }
      ⟨by decide, by simp only [MSG_LINE]; omega⟩ (by omega) hscr.2
    have hmin : min (strlen (s.messages s.last_message_id) + 1 + 2) 79 =
        strlen (s.messages s.last_message_id) + 3 := by
      rw [min_eq_left (by omega)]
      ring
    have htake : T.take (79 - (strlen (s.messages s.last_message_id) + 3)).toNat = T := by
      apply List.take_of_length_le
      simp only [strlen] at hc ⊢
      omega
    rw [hmin, htake] at htr
    simp only [h1, Outcome.bind]
    refine ⟨_, rfl, f1.input, htr, f1.last_message_id, ?_, f1.message_ready_to_print⟩
    simp only [f1.messages, f1.last_message_id]
  · intro hc
    rw [printMessage_prompt_path N M (some T) s hp (Or.inr (by simp only; omega))]
    obtain ⟨l1, h1⟩ := putString_trace (cstr " -more-") MSG_LINE
      (min (strlen (s.messages s.last_message_id) + 1) 73) s
    have hmin : min (min (strlen (s.messages s.last_message_id) + 1) 73) 79 =
        min (strlen (s.messages s.last_message_id) + 1) 73 := by
      rw [min_eq_left]
      exact le_trans (min_le_right _ _) (by decide)
    rw [hmin] at h1
    cases hr : putString (cstr " -more-")
        { y := MSG_LINE, x := min (strlen (s.messages s.last_message_id) + 1) 73 } s with
    | stop why s1 =>
      rw [hr] at h1
      exact ⟨l1, h1⟩
    | ok v s1 =>
      rw [hr] at h1
      simp only [Outcome.state] at h1
      simp only [Outcome.bind]
      obtain ⟨l2, h2⟩ := moreKeyLoop_trace_ext (s1.input.length + 1) s1
      cases hr2 : moreKeyLoop (s1.input.length + 1) s1 with
      | stop why s2 =>
        rw [hr2] at h2
        exact ⟨l1 ++ l2, by simp only [Outcome.state] at h2 ⊢; rw [h2, h1]; simp⟩
      | ok v2 s2 =>
        rw [hr2] at h2
        simp only [Outcome.state] at h2
        obtain ⟨l3, h3⟩ := printMessage_trace_ext_not_pending N M (some T)
          { s2 with message_ready_to_print := false } rfl
        exact ⟨l1 ++ l2 ++ l3, by rw [h3]; simp only [h2, h1]; simp⟩

/-- Witness for C1 as amended: after the message `a` the text `b` coalesces. -/
theorem printMessage_coalescing_rule_witness :
    ∃ t, printMessage 40 128 (some (cstr "b")) (afterMessage (cstr "a") []) = .ok () t ∧
      t.input = (afterMessage (cstr "a") []).input ∧
      t.trace = (afterMessage (cstr "a") []).trace ++
        [.mvaddstr MSG_LINE (strlen ((afterMessage (cstr "a") []).messages
          (afterMessage (cstr "a") []).last_message_id) + 3) (cstr "b")] ∧
      t.last_message_id = (afterMessage (cstr "a") []).last_message_id ∧
      t.messages = Function.update (afterMessage (cstr "a") []).messages
        (afterMessage (cstr "a") []).last_message_id
        ((afterMessage (cstr "a") []).messages (afterMessage (cstr "a") []).last_message_id ++
          cstr "  " ++ cstr "b") ∧
      t.message_ready_to_print = true :=
  (printMessage_coalescing_rule 40 128 (afterMessage (cstr "a") []) (cstr "b") (by decide)
    (by decide)).1 (by decide)


/-! ## Runs on concrete sessions -/

/-- C2 on a concrete run: after `printMessage("a")` and `printMessage("b")` (the
second coalesces: no prompt, no key read) the newest history entry is `a  b`
with two spaces, but the message line shows `a   b` with three: `b` is drawn at
column `strlen("a") + 1 + 2 = 4`. -/
theorem printMessage_display_differs_from_history :
    (afterMessage (cstr "a") []).message_ready_to_print = true ∧
    (afterMessage (cstr "a") []).stdscr.rowText 0 = cstr "a" ++ List.replicate 79 32 ∧
    (printMessage 40 128 (some (cstr "b")) (afterMessage (cstr "a") [])).returned = true ∧
    (printMessage 40 128 (some (cstr "b")) (afterMessage (cstr "a") [])).state.trace =
      (afterMessage (cstr "a") []).trace ++ [.mvaddstr 0 4 (cstr "b")] ∧
    (printMessage 40 128 (some (cstr "b")) (afterMessage (cstr "a") [])).state.messages 1 =
      cstr "a  b" ∧
    (printMessage 40 128 (some (cstr "b")) (afterMessage (cstr "a") [])).state.stdscr.rowText 0 =
      cstr "a   b" ++ List.replicate 75 32 ∧
    (printMessage 40 128 (some (cstr "b")) (afterMessage (cstr "a") [])).state.stdscr.rowText 0 ≠
      cstr "a  b" ++ List.replicate 76 32 := by
  decide

/-- C7: `messageLineClear` and `clearToBottom` never call `printMessage(CNIL)`:
in every state they only move the cursor and clear, read no key and leave
`message_ready_to_print` as it was.  On a concrete run with the message `a`
pending, both blank the message line and `message_ready_to_print` stays true;
`eraseLine` on the message line, `clearScreen` and `putStringClearToEOL` on the
message line do flush first (prompt, key, flag cleared). -/
theorem messageLineClear_does_not_flush :
    (∀ s : State, (messageLineClear s).message_ready_to_print = s.message_ready_to_print ∧
      (messageLineClear s).input = s.input ∧
      (messageLineClear s).trace =
        s.trace ++ [.move 0 0, .clrtoeol, .move s.stdscr.cury s.stdscr.curx]) ∧
    (∀ (row : Int) (s : State),
      (clearToBottom row s).message_ready_to_print = s.message_ready_to_print ∧
      (clearToBottom row s).input = s.input ∧
      (clearToBottom row s).trace = s.trace ++ [.move row 0, .clrtobot]) ∧
    (afterMessage (cstr "a") [32]).message_ready_to_print = true ∧
    (messageLineClear (afterMessage (cstr "a") [32])).message_ready_to_print = true ∧
    (messageLineClear (afterMessage (cstr "a") [32])).stdscr.rowText 0 = List.replicate 80 32 ∧
    (messageLineClear (afterMessage (cstr "a") [32])).trace =
      (afterMessage (cstr "a") [32]).trace ++ [.move 0 0, .clrtoeol, .move 0 0] ∧
    (messageLineClear (afterMessage (cstr "a") [32])).input = [32] ∧
    (clearToBottom 0 (afterMessage (cstr "a") [32])).message_ready_to_print = true ∧
    (clearToBottom 0 (afterMessage (cstr "a") [32])).stdscr.rowText 0 = List.replicate 80 32 ∧
    (clearToBottom 0 (afterMessage (cstr "a") [32])).trace =
      (afterMessage (cstr "a") [32]).trace ++ [.move 0 0, .clrtobot] ∧
    (eraseLine 40 128 { y := 0, x := 0 }
      (afterMessage (cstr "a") [32])).state.message_ready_to_print = false ∧
    (eraseLine 40 128 { y := 0, x := 0 } (afterMessage (cstr "a") [32])).state.input = [] ∧
    (clearScreen 40 128 (afterMessage (cstr "a") [32])).state.message_ready_to_print = false ∧
    (putStringClearToEOL 40 128 (cstr "?") { y := 0, x := 0 }
      (afterMessage (cstr "a") [32])).state.message_ready_to_print = false := by
  refine ⟨fun s => ⟨rfl, rfl, ?_⟩, fun row s => ⟨rfl, rfl, ?_⟩, ?_⟩
  · simp [messageLineClear, currentCursorPosition]
  · simp [clearToBottom, clrtobot, State.log]
  · decide

/-- C10 on a concrete run: with a pending message of 72 characters the prompt
is written at column 73, where `putString` keeps only `79 - 73 = 6` of the
seven characters of `" -more-"`: the line shows `" -more"` in columns 73 to 78
and column 79 stays blank, while the call waits for a key.  (After 71
characters the prompt starts at column 72 and is written whole.) -/
theorem more_prompt_cut_at_column_73 :
    (afterMessage (List.replicate 72 97) []).message_ready_to_print = true ∧
    ((afterMessage (List.replicate 72 97) []).messages
      (afterMessage (List.replicate 72 97) []).last_message_id).length = 72 ∧
    (cstr " -more-").length = 7 ∧
    (printMessage 40 128 (some (cstr "x")) (afterMessage (List.replicate 72 97) [])).stopped =
      some .blocked ∧
    (printMessage 40 128 (some (cstr "x")) (afterMessage (List.replicate 72 97) [])).state.trace =
      (afterMessage (List.replicate 72 97) []).trace ++
        [.mvaddstr 0 73 (cstr " -more"), .refresh] ∧
    (printMessage 40 128 (some (cstr "x"))
        (afterMessage (List.replicate 72 97) [])).state.stdscr.rowText 0 =
      List.replicate 72 97 ++ [32] ++ cstr " -more" ++ [32] ∧
    (printMessage 40 128 (some (cstr "x")) (afterMessage (List.replicate 71 97) [])).state.trace =
      (afterMessage (List.replicate 71 97) []).trace ++
        [.mvaddstr 0 72 (cstr " -more-"), .refresh] := by
  decide


/-! ## The line editor -/

theorem removeTrailingBlanks_length (buf : List Int) :
    (removeTrailingBlanks buf).length ≤ buf.length := by
  unfold removeTrailingBlanks
  rw [List.length_reverse]
  have := (List.dropWhile_suffix (l := buf.reverse) (fun c => decide (c = 32))).length_le
  simpa using this

theorem removeTrailingBlanks_mem (buf : List Int) (c : Int)
    (h : c ∈ removeTrailingBlanks buf) : c ∈ buf := by
  unfold removeTrailingBlanks at h
  rw [List.mem_reverse] at h
  have := (List.dropWhile_suffix (l := buf.reverse) (fun c => decide (c = 32))).mem h
  simpa using this

theorem removeTrailingBlanks_last (buf : List Int) :
    (removeTrailingBlanks buf).getLast? ≠ some 32 := by
  unfold removeTrailingBlanks
  rw [List.getLast?_reverse]
  intro h
  have := List.head?_dropWhile_not (fun c => decide (c = 32)) buf.reverse
  rw [h] at this
  simp at this

theorem addch_frame (ch : Int) (s : State) : ScreenFrame s (addch ch s).2 := by
  have h := s.stdscr.addch_dims ch
  constructor <;> simp [addch, State.log, h.1, h.2]

theorem addBlanks_frame (n : Nat) (s : State) : ScreenFrame s (addBlanks n s) := by
  induction n generalizing s with
  | zero => exact ScreenFrame.unchanged s
  | succ n ih => exact (addch_frame 32 s).seq (ih _)

theorem mvaddch_frame (y x ch : Int) (s : State) : ScreenFrame s (mvaddch y x ch s).2 := by
  have h := s.stdscr.move_dims y x
  have h2 := (s.stdscr.move y x).2.addch_dims ch
  unfold mvaddch
  rcases hr : (s.log (.mvaddch y x ch)).stdscr.move y x with ⟨b, w⟩
  have hr2 : s.stdscr.move y x = (b, w) := hr
  rw [hr2] at h h2
  cases b <;> constructor <;> simp_all [State.log]

theorem terminalBellSound_frame (s : State) : ScreenFrame s (terminalBellSound s) := by
  unfold terminalBellSound
  simp only
  split_ifs <;> constructor <;> simp [refresh, putQIO, State.log]

theorem getStringKey_step (next : Coord_t → List Int → State → Outcome (Bool × List Int))
    (start_col end_col : Int) (coords : Coord_t) (buf : List Int) (key : Int) (s : State)
    (hinv : EditInv start_col end_col coords buf) :
    getStringKey next start_col end_col coords buf key s = .ok (false, buf) s ∨
    getStringKey next start_col end_col coords buf key s = .ok (true, buf) s ∨
    (∃ t, getStringKey next start_col end_col coords buf key s = .stop .abort t) ∨
    (∃ coords2 buf2 s2,
      getStringKey next start_col end_col coords buf key s = next coords2 buf2 s2 ∧
      EditInv start_col end_col coords2 buf2) := by
  obtain ⟨h1, h2, h3⟩ := hinv
  unfold getStringKey
  split_ifs with k1 k2 k3 k4 k5
  · exact Or.inl rfl
  · exact Or.inr (Or.inl rfl)
  · simp only
    cases hp : putString (cstr " ") { y := coords.y, x := coords.x - 1 } s with
    | stop why t =>
      have := putString_stop_abort _ _ _ _ _ hp
      subst this
      exact Or.inr (Or.inr (Or.inl ⟨t, rfl⟩))
    | ok v t =>
      simp only [Outcome.bind]
      refine Or.inr (Or.inr (Or.inr ⟨_, _, _, rfl, ?_, ?_, ?_⟩))
      · simp only [List.length_dropLast]
        omega
      · simp only
        omega
      · intro c hc
        exact h3 c (List.mem_of_mem_dropLast hc)
  · exact Or.inr (Or.inr (Or.inr ⟨_, _, _, rfl, h1, h2, h3⟩))
  · exact Or.inr (Or.inr (Or.inr ⟨_, _, _, rfl, h1, h2, h3⟩))
  · refine Or.inr (Or.inr (Or.inr ⟨_, _, _, rfl, ?_, ?_, ?_⟩))
    · simp only [List.length_append, List.length_singleton]
      push_cast
      omega
    · simp only [Bool.or_eq_true, Bool.not_eq_true', decide_eq_true_eq, not_or, not_lt] at k5
      simp only
      omega
    · intro c hc
      simp only [Bool.or_eq_true, Bool.not_eq_true', decide_eq_true_eq, not_or, not_lt,
        Bool.not_eq_false] at k5
      rcases List.mem_append.1 hc with hc | hc
      · exact h3 c hc
      · simp only [List.mem_singleton] at hc
        rw [hc]
        exact k5.1

theorem getStringLoop_result (fuel : Nat) (start_col end_col : Int) (coords : Coord_t)
    (buf : List Int) (s : State) (hinv : EditInv start_col end_col coords buf)
    (b : Bool) (r : List Int) (t : State)
    (h : getStringLoop fuel start_col end_col coords buf s = .ok (b, r) t) :
    (r.length : Int) ≤ end_col + 1 - start_col ∧ ∀ c ∈ r, isprint c = true := by
  induction fuel generalizing coords buf s with
  | zero => simp [getStringLoop] at h
  | succ fuel ih =>
    unfold getStringLoop at h
    cases hk : getKeyInput s with
    | stop why s1 => simp [hk, Outcome.bind] at h
    | ok key s1 =>
      simp only [hk, Outcome.bind] at h
      have hbuf : (buf.length : Int) ≤ end_col + 1 - start_col ∧ ∀ c ∈ buf, isprint c = true :=
        ⟨by have := hinv.1; have := hinv.2.1; omega, hinv.2.2⟩
      rcases getStringKey_step (getStringLoop fuel start_col end_col) start_col end_col coords
        buf key s1 hinv with h1 | h1 | ⟨u, h1⟩ | ⟨coords2, buf2, s2, h1, hinv2⟩
      · rw [h1] at h
        simp only [Outcome.ok.injEq, Prod.mk.injEq] at h
        rw [← h.1.2]
        exact hbuf
      · rw [h1] at h
        simp only [Outcome.ok.injEq, Prod.mk.injEq] at h
        rw [← h.1.2]
        exact hbuf
      · rw [h1] at h
        simp at h
      · rw [h1] at h
        exact ih coords2 buf2 s2 hinv2 h


theorem getStringKey_continue (next : Coord_t → List Int → State → Outcome (Bool × List Int))
    (start_col end_col : Int) (coords : Coord_t) (buf : List Int) (key : Int) (s : State)
    (hk : key ≠ 27 ∧ key ≠ 10 ∧ key ≠ 13)
    (hx : 0 ≤ start_col ∧ start_col ≤ coords.x)
    (hy : 0 ≤ coords.y ∧ coords.y < s.stdscr.LINES) (hc : 80 ≤ s.stdscr.COLS) :
    ∃ coords2 buf2 s2,
      getStringKey next start_col end_col coords buf key s = next coords2 buf2 s2 ∧
      ScreenFrame s s2 ∧ coords2.y = coords.y ∧ start_col ≤ coords2.x := by
  have k1 : ¬ key = ESCAPE := hk.1
  have k2 : ¬ (key = CTRL_KEY 74 ∨ key = CTRL_KEY 77) := by
    have e1 : CTRL_KEY 74 = 10 := by decide
    have e2 : CTRL_KEY 77 = 13 := by decide
    rw [e1, e2]
    omega
  unfold getStringKey
  rw [if_neg k1, if_neg k2]
  split_ifs with k3 k4 k5
  · simp only
    obtain ⟨s1, h1, _, f1⟩ := putString_ok (cstr " ") coords.y (coords.x - 1) s hy
      (by omega) hc
    rw [h1]
    simp only [Outcome.bind]
    exact ⟨_, _, _, rfl, f1.seq (move_frame _ _ _), rfl, by simp only; omega⟩
  · exact ⟨_, _, _, rfl, ScreenFrame.unchanged s, rfl, hx.2⟩
  · exact ⟨_, _, _, rfl, terminalBellSound_frame s, rfl, hx.2⟩
  · exact ⟨_, _, _, rfl, mvaddch_frame _ _ _ s, rfl, by simp only; omega⟩

theorem getStringLoop_terminated_aux (start_col end_col : Int) (pre : List Int) (k : Int)
    (rest : List Int)
    (hpre : ∀ c ∈ pre, 0 ≤ c ∧ c ≤ 255 ∧ c ≠ 27 ∧ c ≠ 10 ∧ c ≠ 13)
    (hk : k = 27 ∨ k = 10 ∨ k = 13) (fuel : Nat) (coords : Coord_t) (buf : List Int)
    (s : State) (hfuel : pre.length ≤ fuel)
    (hx : 0 ≤ start_col ∧ start_col ≤ coords.x)
    (hy : 0 ≤ coords.y ∧ coords.y < s.stdscr.LINES) (hc : 80 ≤ s.stdscr.COLS) :
    ∃ r t, (getKeyLoop (pre ++ k :: rest) s).bind (fun key s1 =>
        getStringKey (getStringLoop fuel start_col end_col) start_col end_col coords buf key s1)
      = .ok (decide (k ≠ 27), r) t ∧ t.input = rest := by
  induction pre generalizing fuel coords buf s with
  | nil =>
    have hk0 : 0 ≤ k ∧ k ≤ 255 ∧ k ≠ 18 := by omega
    rw [List.nil_append, getKeyLoop_key_step k rest s hk0.1 hk0.2.1 hk0.2.2]
    simp only [Outcome.bind]
    refine ⟨buf, ({ s with input := rest }.log (.getch k)), ?_, by simp [State.log]⟩
    rcases hk with hk | hk | hk <;> subst hk <;> simp [getStringKey, ESCAPE, CTRL_KEY]
  | cons c pre ih =>
    have hc0 := hpre c (List.mem_cons_self _ _)
    have hpre2 : ∀ c ∈ pre, 0 ≤ c ∧ c ≤ 255 ∧ c ≠ 27 ∧ c ≠ 10 ∧ c ≠ 13 :=
      fun x hx => hpre x (List.mem_cons_of_mem _ hx)
    simp only [List.length_cons] at hfuel
    by_cases h18 : c = 18
    · subst h18
      rw [List.cons_append, getKeyLoop_redraw_step]
      exact ih hpre2 fuel coords buf _ (by omega) hx hy hc
    · rw [List.cons_append, getKeyLoop_key_step c _ s hc0.1 hc0.2.1 h18]
      simp only [Outcome.bind]
      obtain ⟨f, rfl⟩ : ∃ f, fuel = f + 1 := ⟨fuel - 1, by omega⟩
      obtain ⟨coords2, buf2, s2, h2, f2, hy2, hx2⟩ :=
        getStringKey_continue (getStringLoop (f + 1) start_col end_col) start_col end_col
          coords buf c ({ s with input := pre ++ k :: rest }.log (.getch c))
          ⟨hc0.2.2.1, hc0.2.2.2.1, hc0.2.2.2.2⟩ hx hy hc
      rw [h2]
      unfold getStringLoop
      rw [getKeyInput_eq]
      have hin : s2.input = pre ++ k :: rest := f2.input
      rw [hin]
      have hl : s2.stdscr.LINES = s.stdscr.LINES := f2.LINES
      have hcol : s2.stdscr.COLS = s.stdscr.COLS := f2.COLS
      exact ih hpre2 f coords2 buf2 _ (by omega) ⟨hx.1, hx2⟩
        (by rw [hy2]; exact ⟨hy.1, by simpa [refresh, putQIO, State.log, hl] using hy.2⟩)
        (by simpa [refresh, putQIO, State.log, hcol] using hc)

theorem getStringLoop_typed_aux (start_col end_col : Int) (ks : List Int) (nl : Int)
    (rest : List Int) (hks : ∀ c ∈ ks, isprint c = true) (hnl : nl = 10 ∨ nl = 13)
    (fuel : Nat) (coords : Coord_t) (buf : List Int) (s : State) (hfuel : ks.length ≤ fuel)
    (hroom : coords.x + ks.length ≤ end_col + 1) :
    ∃ t, (getKeyLoop (ks ++ nl :: rest) s).bind (fun key s1 =>
        getStringKey (getStringLoop fuel start_col end_col) start_col end_col coords buf key s1)
      = .ok (true, buf ++ ks) t ∧ t.input = rest := by
  induction ks generalizing fuel coords buf s with
  | nil =>
    have hk0 : 0 ≤ nl ∧ nl ≤ 255 ∧ nl ≠ 18 := by omega
    rw [List.nil_append, getKeyLoop_key_step nl rest s hk0.1 hk0.2.1 hk0.2.2]
    simp only [Outcome.bind]
    refine ⟨({ s with input := rest }.log (.getch nl)), ?_, by simp [State.log]⟩
    rcases hnl with hk | hk <;> subst hk <;> simp [getStringKey, ESCAPE, CTRL_KEY]
  | cons c ks ih =>
    have hc0 := hks c (List.mem_cons_self _ _)
    have hks2 : ∀ c ∈ ks, isprint c = true := fun x hx => hks x (List.mem_cons_of_mem _ hx)
    have hrange : 32 ≤ c ∧ c ≤ 126 := by
      simpa [isprint] using hc0
    simp only [List.length_cons] at hfuel hroom
    push_cast at hroom
    rw [List.cons_append, getKeyLoop_key_step c _ s (by omega) (by omega) (by omega)]
    simp only [Outcome.bind]
    obtain ⟨f, rfl⟩ : ∃ f, fuel = f + 1 := ⟨fuel - 1, by omega⟩
    have e1 : CTRL_KEY 74 = 10 := by decide
    have e2 : CTRL_KEY 77 = 13 := by decide
    have e3 : CTRL_KEY 72 = 8 := by decide
    have k1 : ¬ c = ESCAPE := by simp only [ESCAPE]; omega
    have k2 : ¬ (c = CTRL_KEY 74 ∨ c = CTRL_KEY 77) := by rw [e1, e2]; omega
    have k3 : ¬ (c = DELETE ∨ c = CTRL_KEY 72) := by rw [e3]; simp only [DELETE]; omega
    have k4 : ¬ ((!isprint c || decide (coords.x > end_col)) = true) := by
      simp only [hc0, Bool.not_true, Bool.false_or, decide_eq_true_eq, not_lt]
      omega
    unfold getStringKey
    rw [if_neg k1, if_neg k2, if_neg k3, if_neg k4]
    simp only
    unfold getStringLoop
    rw [getKeyInput_eq]
    have hin : (mvaddch coords.y coords.x c
        ({ s with input := ks ++ nl :: rest }.log (.getch c))).2.input = ks ++ nl :: rest :=
      (mvaddch_frame _ _ _ _).input
    rw [hin]
    obtain ⟨t, ht, hrest⟩ := ih hks2 f { coords with x := coords.x + 1 } (buf ++ [c]) _
      (by omega) (by simp only; omega)
    exact ⟨t, by rw [ht]; simp, hrest⟩


theorem getStringInput_eq (coords : Coord_t) (slen : Int) (s : State) :
    getStringInput coords slen s =
      (getStringLoop
        ((move coords.y coords.x
          (addBlanks slen.toNat (move coords.y coords.x s).2)).2.input.length + 1)
        coords.x (if coords.x + slen - 1 > 79 then 79 else coords.x + slen - 1) coords []
        (move coords.y coords.x (addBlanks slen.toNat (move coords.y coords.x s).2)).2).bind
      (fun r s => if r.1 = false then .ok (false, r.2) s
        else .ok (true, removeTrailingBlanks r.2) s) := rfl

theorem getStringInput_start_frame (coords : Coord_t) (slen : Int) (s : State) :
    ScreenFrame s
      (move coords.y coords.x (addBlanks slen.toNat (move coords.y coords.x s).2)).2 :=
  ((move_frame _ _ _).seq (addBlanks_frame _ _)).seq (move_frame _ _ _)

theorem getStringInput_typed (coords : Coord_t) (slen : Int) (s : State)
    (ks : List Int) (nl : Int) (rest : List Int)
    (hks : ∀ c ∈ ks, isprint c = true) (hnl : nl = 10 ∨ nl = 13)
    (hroom : coords.x + ks.length ≤ 80 ∧ (ks.length : Int) ≤ slen)
    (hin : s.input = ks ++ nl :: rest) :
    ∃ t, getStringInput coords slen s = .ok (true, removeTrailingBlanks ks) t ∧
      t.input = rest := by
  have f0 := getStringInput_start_frame coords slen s
  have hin0 := f0.input.trans hin
  rw [getStringInput_eq]
  unfold getStringLoop
  rw [getKeyInput_eq, hin0]
  obtain ⟨t, ht, hrest⟩ := getStringLoop_typed_aux coords.x
    (if coords.x + slen - 1 > 79 then 79 else coords.x + slen - 1) ks nl rest hks hnl
    (ks ++ nl :: rest).length coords []
    { ( putQIO (move coords.y coords.x
          (addBlanks slen.toNat (move coords.y coords.x s).2)).2) with
      game := { (move coords.y coords.x
          (addBlanks slen.toNat (move coords.y coords.x s).2)).2.game with
        command_count := 0 } }
    (by simp) (by split_ifs <;> omega)
  rw [ht]
  exact ⟨t, by simp [Outcome.bind], hrest⟩

/-- C6: the line editor.  (1) Whenever `getStringInput` at an origin with column
at most 79 and `slen ≥ 1` returns success, the string left in `in_str` has at
most `slen` characters, all printable, and does not end with a space.
(2) On a usable screen, at an origin on the screen with column in 0..79, when
the input holds bytes none of which is escape, newline or carriage return and
then a key `k`: if `k` is newline or carriage return the call returns success
having read the input up to `k`, and if `k` is escape it returns false (an
abort, not a successful empty string).  (3) Typing `hello` and three spaces,
then newline, where eight characters fit, returns `hello`. -/
theorem getStringInput_guarantees :
    (∀ (s : State) (coords : Coord_t) (slen : Int) (str : List Int) (t : State),
        coords.x ≤ 79 → 1 ≤ slen →
        getStringInput coords slen s = .ok (true, str) t →
        (str.length : Int) ≤ slen ∧ (∀ c ∈ str, isprint c = true) ∧
          str.getLast? ≠ some 32) ∧
    (∀ (s : State) (coords : Coord_t) (slen : Int) (pre : List Int) (k : Int)
        (rest : List Int),
        0 ≤ coords.x → coords.x ≤ 79 → 1 ≤ slen →
        0 ≤ coords.y → coords.y < s.stdscr.LINES → 80 ≤ s.stdscr.COLS →
        s.input = pre ++ k :: rest →
        (∀ c ∈ pre, 0 ≤ c ∧ c ≤ 255 ∧ c ≠ 27 ∧ c ≠ 10 ∧ c ≠ 13) →
        (k = 10 ∨ k = 13 →
          ∃ str t, getStringInput coords slen s = .ok (true, str) t ∧ t.input = rest) ∧
        (k = 27 →
          ∃ buf t, getStringInput coords slen s = .ok (false, buf) t ∧ t.input = rest)) ∧
    (∀ (s : State) (coords : Coord_t) (slen : Int) (rest : List Int),
        coords.x + 8 ≤ 80 → 8 ≤ slen →
        s.input = cstr "hello   " ++ 10 :: rest →
        ∃ t, getStringInput coords slen s = .ok (true, cstr "hello") t ∧ t.input = rest) := by
  refine ⟨?_, ?_, ?_⟩
  · intro s coords slen str t hx hslen h
    rw [getStringInput_eq] at h
    cases hl : getStringLoop
        ((move coords.y coords.x
          (addBlanks slen.toNat (move coords.y coords.x s).2)).2.input.length + 1)
        coords.x (if coords.x + slen - 1 > 79 then 79 else coords.x + slen - 1) coords []
        (move coords.y coords.x (addBlanks slen.toNat (move coords.y coords.x s).2)).2 with
    | stop why u =>
      rw [hl] at h
      simp [Outcome.bind] at h
    | ok r u =>
      obtain ⟨b, buf⟩ := r
      have hinv : EditInv coords.x
          (if coords.x + slen - 1 > 79 then 79 else coords.x + slen - 1) coords [] :=
        ⟨by simp, by split_ifs <;> omega, by simp⟩
      obtain ⟨g1, g2⟩ := getStringLoop_result _ _ _ _ _ _ hinv b buf u hl
      rw [hl] at h
      simp only [Outcome.bind] at h
      cases b with
      | false => simp at h
      | true =>
        simp only [Bool.true_eq_false, if_false, Outcome.ok.injEq, Prod.mk.injEq,
          true_and] at h
        rw [← h.1]
        refine ⟨?_, fun c hc => g2 c (removeTrailingBlanks_mem buf c hc),
          removeTrailingBlanks_last buf⟩
        have := removeTrailingBlanks_length buf
        have hle : (buf.length : Int) ≤ slen := by
          split_ifs at g1 <;> omega
        omega
  · intro s coords slen pre k rest hx0 hx hslen hy0 hy hc hin hpre
    have f0 := getStringInput_start_frame coords slen s
    have hin0 := f0.input.trans hin
    have key : ∀ (hk : k = 27 ∨ k = 10 ∨ k = 13),
        ∃ r t, getStringInput coords slen s =
          (if decide (k ≠ 27) = false then Outcome.ok (false, r) t
            else .ok (true, removeTrailingBlanks r) t) ∧ t.input = rest := by
      intro hk
      rw [getStringInput_eq]
      unfold getStringLoop
      rw [getKeyInput_eq, hin0]
      obtain ⟨r, t, ht, hrest⟩ := getStringLoop_terminated_aux coords.x
        (if coords.x + slen - 1 > 79 then 79 else coords.x + slen - 1) pre k rest hpre hk
        (pre ++ k :: rest).length coords []
        { ( putQIO (move coords.y coords.x
              (addBlanks slen.toNat (move coords.y coords.x s).2)).2) with
          game := { (move coords.y coords.x
              (addBlanks slen.toNat (move coords.y coords.x s).2)).2.game with
            command_count := 0 } }
        (by simp) ⟨hx0, le_refl _⟩
        ⟨hy0, by simpa [refresh, putQIO, State.log, f0.LINES] using hy⟩
        (by simpa [refresh, putQIO, State.log, f0.COLS] using hc)
      rw [ht]
      exact ⟨r, t, by simp [Outcome.bind], hrest⟩
    constructor
    · intro hk
      obtain ⟨r, t, h1, h2⟩ := key (by omega)
      have hd : decide (k ≠ 27) = true := by
        simp only [decide_eq_true_eq]
        omega
      rw [hd] at h1
      exact ⟨_, t, by simpa using h1, h2⟩
    · intro hk
      obtain ⟨r, t, h1, h2⟩ := key (Or.inl hk)
      have hd : decide (k ≠ 27) = false := by
        simp only [decide_eq_false_iff_not, not_not]
        exact hk
      rw [hd] at h1
      exact ⟨_, t, by simpa using h1, h2⟩
  · intro s coords slen rest hx hslen hin
    obtain ⟨t, ht, hrest⟩ := getStringInput_typed coords slen s (cstr "hello   ") 10 rest
      (by decide) (Or.inl rfl)
      ⟨by
        have : (cstr "hello   ").length = 8 := by decide
        rw [this]
        exact hx, by
        have : (cstr "hello   ").length = 8 := by decide
        rw [this]
        exact hslen⟩ hin
    have hstrip : removeTrailingBlanks (cstr "hello   ") = cstr "hello" := by decide
    rw [hstrip] at ht
    exact ⟨t, ht, hrest⟩

/-- Witness for C6: `hello` and three spaces typed at the top left with room
for ten characters; the call succeeds and the guarantees hold of its result. -/
theorem getStringInput_guarantees_witness :
    ∃ t, getStringInput { y := 0, x := 0 } 10 (playState (cstr "hello   " ++ 10 :: [113])) =
        .ok (true, cstr "hello") t ∧ t.input = [113] ∧
      ((cstr "hello").length : Int) ≤ 10 ∧ (∀ c ∈ cstr "hello", isprint c = true) ∧
      (cstr "hello").getLast? ≠ some 32 := by
  obtain ⟨t, ht, hrest⟩ := getStringInput_guarantees.2.2
    (playState (cstr "hello   " ++ 10 :: [113])) { y := 0, x := 0 } 10 [113]
    (by decide) (by decide) rfl
  exact ⟨t, ht, hrest, getStringInput_guarantees.1 _ _ _ _ _ (by decide) (by decide) ht⟩

end Umoria
